import Mathlib

/-!
# NFL Injury Recovery Research site: `js/app.js`

A shallow embedding of the client-side script `src/js/app.js` and proofs about
its modal system, scroll observers, stagger scheduler, counter animator and
debounce helper.

Conventions of the embedding:

* DOM elements are identified by natural numbers (`Elem`) or, where the script
  looks them up with `getElementById`, by their id string.
* A `classList` is a list of class names without repetition; `add` appends a
  name that is absent and `remove` deletes it.
* Host timers (`setTimeout` / `clearTimeout`) live in an explicit timer table
  driven by a simulated clock in milliseconds.
-/

namespace NFLInjury

/-! ## Modal system (`openModal`, `closeModal`, `initModals`) -/

/-- `classList.add(name)`: appends the name unless it is already present. -/
def classListAdd (name : String) (classes : List String) : List String :=
  if name ∈ classes then classes else classes ++ [name]

/-- `classList.remove(name)`. -/
def classListRemove (name : String) (classes : List String) : List String :=
  classes.filter (fun c => c ≠ name)

/-- The part of the document the modal system reads: the ids for which
`document.getElementById` finds an element, and the modals that contain an
element matching `[id$="Body"]`. -/
structure ModalPage where
  elementIds : List String
  withBody : List String

/-- `document.getElementById(id)` is non-null. -/
def ModalPage.hasElement (page : ModalPage) (id : String) : Bool :=
  decide (id ∈ page.elementIds)

/-- The mutable state the modal system touches: `APP.activeModals`, the set of
modal ids whose element carries the class `active`, the `innerHTML` written to
modal bodies (latest write first) and `document.body.style.overflow`. -/
structure ModalState where
  activeModals : List String
  active : List String
  bodyHtml : List (String × String)
  overflow : String

/-- State at page load: `APP.activeModals = []`, no modal active, overflow `''`. -/
def ModalState.init : ModalState :=
  { activeModals := [], active := [], bodyHtml := [], overflow := "" }

/-- `openModal(modalId, content = null)`; `content` is written to the modal body only
when it is truthy (neither `null` nor the empty string) and the modal has a body. -/
def openModal (page : ModalPage) (modalId : String) (content : Option String)
    (s : ModalState) : ModalState :=
  if !page.hasElement modalId then s
  else
    let html :=
      match content with
      | some c =>
        if c ≠ "" ∧ modalId ∈ page.withBody then (modalId, c) :: s.bodyHtml else s.bodyHtml
      | none => s.bodyHtml
    { activeModals := s.activeModals ++ [modalId]
      active := classListAdd modalId s.active
      bodyHtml := html
      overflow := "hidden" }

/-- `closeModal(modalId)`. -/
def closeModal (page : ModalPage) (modalId : String) (s : ModalState) : ModalState :=
  if !page.hasElement modalId then s
  else
    let remaining := s.activeModals.filter (fun id => id ≠ modalId)
    { activeModals := remaining
      active := classListRemove modalId s.active
      bodyHtml := s.bodyHtml
      overflow := if remaining.length = 0 then "" else s.overflow }

/-- The `keydown` listener installed by `initModals`. -/
def keydown (page : ModalPage) (key : String) (s : ModalState) : ModalState :=
  if key = "Escape" ∧ s.activeModals.length > 0 then
    match s.activeModals.getLast? with
    | some last => closeModal page last s
    | none => s
  else s

/-- The id handed to `closeModal` by the `keydown` listener, if it calls it. -/
def keydownTarget (key : String) (s : ModalState) : Option String :=
  if key = "Escape" ∧ s.activeModals.length > 0 then s.activeModals.getLast? else none

/-- Calls `openModal(id)` for each id in order. -/
def openAll (page : ModalPage) (ids : List String) (s : ModalState) : ModalState :=
  ids.foldl (fun st id => openModal page id none st) s

/-- Delivers `n` Escape key presses. -/
def pressEscape (page : ModalPage) : Nat → ModalState → ModalState
  | 0, s => s
  | n + 1, s => pressEscape page n (keydown page "Escape" s)

/-- The ids `closeModal` is called with over `n` Escape key presses, in order. -/
def escapeClosed (page : ModalPage) : Nat → ModalState → List String
  | 0, _ => []
  | n + 1, s =>
    (keydownTarget "Escape" s).toList ++ escapeClosed page n (keydown page "Escape" s)

/-- A user action on the modal system. -/
inductive ModalOp where
  | openModal (modalId : String) (content : Option String)
  | closeModal (modalId : String)
  | keydown (key : String)

/-- One user action. -/
def ModalOp.apply (page : ModalPage) (s : ModalState) : ModalOp → ModalState
  | .openModal id content => NFLInjury.openModal page id content s
  | .closeModal id => NFLInjury.closeModal page id s
  | .keydown k => NFLInjury.keydown page k s

/-- A sequence of user actions from a given state. -/
def runModalOps (page : ModalPage) (ops : List ModalOp) (s : ModalState) : ModalState :=
  ops.foldl (ModalOp.apply page) s

/-- The invariant of the modal system. -/
structure ModalInv (page : ModalPage) (s : ModalState) : Prop where
  overflow_iff : s.overflow = "hidden" ↔ s.activeModals ≠ []
  active_iff : ∀ id, id ∈ s.active ↔ id ∈ s.activeModals
  listed_exist : ∀ id ∈ s.activeModals, page.hasElement id = true

/-! ## Host timers (`setTimeout`, `clearTimeout`) on a simulated clock -/

/-- A pending one-shot timer: its id, the clock time at which it is due and the
closure it runs. -/
structure Timer (κ : Type) where
  id : Nat
  due : Nat
  callback : κ

/-- The timer table of the host: the simulated clock (ms), the next timer id and
the pending timers in registration order. -/
structure Timers (κ : Type) where
  now : Nat
  nextId : Nat
  pending : List (Timer κ)

/-- A host with no pending timer at clock `now`. -/
def Timers.fresh {κ : Type} (now : Nat) : Timers κ :=
  { now := now, nextId := 1, pending := [] }

/-- `setTimeout(callback, delay)`: a negative delay counts as 0. Returns the new
table and the id of the timer. -/
def Timers.setTimeout {κ : Type} (t : Timers κ) (callback : κ) (delay : Int) : Timers κ × Nat :=
  ({ now := t.now
     nextId := t.nextId + 1
     pending := t.pending ++ [{ id := t.nextId, due := t.now + delay.toNat, callback := callback }] },
   t.nextId)

/-- `clearTimeout(id)`; `undefined` and ids of timers that are gone are ignored. -/
def Timers.clearTimeout {κ : Type} (t : Timers κ) (id : Option Nat) : Timers κ :=
  match id with
  | none => t
  | some i => { t with pending := t.pending.filter (fun p => p.id ≠ i) }

/-- The pending timer that fires next: the smallest due time, the one registered
first among equals. -/
def earliest {κ : Type} : List (Timer κ) → Option (Timer κ)
  | [] => none
  | x :: rest =>
    match earliest rest with
    | none => some x
    | some y => if x.due ≤ y.due then some x else some y

/-- Takes the next timer out of the table and moves the clock to its due time (the
clock never runs backwards). -/
def Timers.pop {κ : Type} (t : Timers κ) : Option (Timer κ × Timers κ) :=
  match earliest t.pending with
  | none => none
  | some x =>
    some (x, { now := max t.now x.due
               nextId := t.nextId
               pending := t.pending.filter (fun p => p.id ≠ x.id) })

/-! ## Scroll observer factory (`createScrollObserver`) -/

/-- Identity of a DOM element. -/
abbrev Elem := Nat

/-- An `IntersectionObserverEntry`, as far as the script reads it. -/
structure Entry where
  target : Elem
  isIntersecting : Bool
deriving DecidableEq, Repr

/-- Options of an `IntersectionObserver`. -/
structure ObserverOptions where
  threshold : ℚ
  rootMargin : String

/-- `defaultOptions = { threshold: 0.1, rootMargin: '0px', ...options }`. -/
def mergeOptions (threshold : Option ℚ) (rootMargin : Option String) : ObserverOptions :=
  { threshold := threshold.getD (1 / 10), rootMargin := rootMargin.getD "0px" }

/-- An observer created by the factory: its options and the elements it observes. -/
structure ScrollObserver where
  options : ObserverOptions
  observed : List Elem

/-- The static document: `document.querySelectorAll(selector)` in document order. -/
abbrev Document := String → List Elem

/-- The function passed to `new IntersectionObserver(...)` by `createScrollObserver`:
`entries.forEach(entry => { if (entry.isIntersecting) callback(entry.target, entry) })`.
The callback is a state transformer on the state `σ` it mutates. -/
def observerCallback {σ : Type} (callback : Elem → Entry → σ → σ) (entries : List Entry)
    (s : σ) : σ :=
  entries.foldl (fun st entry => if entry.isIntersecting then callback entry.target entry st else st) s

/-- `createScrollObserver(selector, callback, options)`: observes every element
matching the selector at call time and pushes the observer on `APP.scrollObservers`.
Returns the observer and the new registry. -/
def createScrollObserver (doc : Document) (selector : String) (threshold : Option ℚ)
    (rootMargin : Option String) (scrollObservers : List ScrollObserver) :
    ScrollObserver × List ScrollObserver :=
  let observer : ScrollObserver :=
    { options := mergeOptions threshold rootMargin, observed := doc selector }
  (observer, scrollObservers ++ [observer])

/-- A sequence of watcher callback invocations of one observer. -/
def deliver {σ : Type} (callback : Elem → Entry → σ → σ) (invocations : List (List Entry))
    (s : σ) : σ :=
  invocations.foldl (fun st entries => observerCallback callback entries st) s

/-- A callback that only records the arguments it is called with. -/
def recordCall (element : Elem) (entry : Entry) (calls : List (Elem × Entry)) :
    List (Elem × Entry) :=
  calls ++ [(element, entry)]

/-! ## Stagger scheduler and reveal bindings -/

/-- The closure `() => { element.classList.add(cls) }` handed to `setTimeout`. -/
structure AddClass where
  element : Elem
  cls : String
deriving DecidableEq, Repr

/-- The state the reveal code touches: the class list of every element, the host
timers, and the trace of timer callbacks that have run (clock time and closure). -/
structure RevealWorld where
  classes : Elem → List String
  timers : Timers AddClass
  fired : List (Nat × AddClass)

/-- A page at clock `now` on which no element carries a class and no timer is pending. -/
def RevealWorld.fresh (now : Nat) : RevealWorld :=
  { classes := fun _ => [], timers := Timers.fresh now, fired := [] }

/-- `setTimeout(() => element.classList.add(cls), delay)`. -/
def scheduleAddClass (element : Elem) (cls : String) (delay : Int) (w : RevealWorld) :
    RevealWorld :=
  { w with timers := (w.timers.setTimeout { element := element, cls := cls } delay).1 }

/-- `staggerAnimation(elements, animationClass, delay = 100)`. -/
def staggerAnimation (elements : List Elem) (animationClass : String) (delay : Int := 100)
    (w : RevealWorld) : RevealWorld :=
  elements.enum.foldl
    (fun st (p : Nat × Elem) => scheduleAddClass p.2 animationClass ((p.1 : Int) * delay) st) w

/-- Runs the closure of a timer. -/
def AddClass.run (a : AddClass) (classes : Elem → List String) : Elem → List String :=
  fun e => if e = a.element then classListAdd a.cls (classes e) else classes e

/-- The simulated clock fires the next pending timer, if there is one. -/
def fireNext (w : RevealWorld) : Option RevealWorld :=
  match w.timers.pop with
  | none => none
  | some (x, timers) =>
    some { classes := x.callback.run w.classes
           timers := timers
           fired := w.fired ++ [(timers.now, x.callback)] }

/-- Fires up to `fuel` timers in due order. -/
def runTimers : Nat → RevealWorld → RevealWorld
  | 0, w => w
  | fuel + 1, w =>
    match fireNext w with
    | none => w
    | some w1 => runTimers fuel w1

/-- Lets the clock run until every pending timer has fired (the closures register
no new timer, so one step per pending timer is enough). -/
def flushTimers (w : RevealWorld) : RevealWorld :=
  runTimers w.timers.pending.length w

/-- `Array.prototype.indexOf`: the first position of the element, `-1` when absent. -/
def jsIndexOf (xs : List Elem) (x : Elem) : Int :=
  if x ∈ xs then (xs.indexOf x : Int) else -1

/-- A staggered reveal binding: the selector it observes, the delay per position
and the visibility threshold. -/
structure RevealBinding where
  selector : String
  staggerMs : Int
  threshold : ℚ

/-- Binding of `initFindingCards`. -/
def findingCards : RevealBinding := { selector := ".finding-card", staggerMs := 150, threshold := 2 / 10 }
/-- Binding of `initCaseCards`. -/
def caseCards : RevealBinding := { selector := ".case-card", staggerMs := 200, threshold := 1 / 10 }
/-- Binding of `initStatCards`. -/
def statCards : RevealBinding := { selector := ".stat-card", staggerMs := 120, threshold := 3 / 10 }
/-- Binding of `initObjectiveCards`. -/
def objectiveCards : RevealBinding := { selector := ".objective-card", staggerMs := 100, threshold := 2 / 10 }
/-- Binding of `initTakeawayBlocks`. -/
def takeawayBlocks : RevealBinding := { selector := ".takeaway-block", staggerMs := 120, threshold := 15 / 100 }
/-- Binding of `initImplicationCards`. -/
def implicationCards : RevealBinding := { selector := ".implication-card", staggerMs := 100, threshold := 2 / 10 }
/-- Binding of `initCitationCards`. -/
def citationCards : RevealBinding := { selector := ".citation-card", staggerMs := 80, threshold := 1 / 10 }
/-- Binding of `initInfoCards`. -/
def infoCards : RevealBinding := { selector := ".info-card", staggerMs := 100, threshold := 2 / 10 }

/-- The eight staggered reveal bindings of the script. -/
def revealBindings : List RevealBinding :=
  [findingCards, caseCards, statCards, objectiveCards, takeawayBlocks, implicationCards,
    citationCards, infoCards]

/-- The callback every staggered reveal binding hands to `createScrollObserver`:
```
const cards = Array.from(document.querySelectorAll(selector));
const index = cards.indexOf(element);
setTimeout(() => { element.classList.add('visible'); }, index * staggerMs);
``` -/
def revealCallback (doc : Document) (b : RevealBinding) (element : Elem) (_entry : Entry)
    (w : RevealWorld) : RevealWorld :=
  let cards := doc b.selector
  let index := jsIndexOf cards element
  scheduleAddClass element "visible" (index * b.staggerMs) w

/-- The body of `initFindingCards` and its seven siblings: nothing is observed when
the selector matches no element. -/
def initReveal (doc : Document) (b : RevealBinding) (scrollObservers : List ScrollObserver) :
    List ScrollObserver :=
  if (doc b.selector).length = 0 then scrollObservers
  else (createScrollObserver doc b.selector (some b.threshold) none scrollObservers).2

/-- The callback of `initComparisonCards`, a binding that guards against firing twice:
```
if (element.classList.contains('animated')) return;
element.classList.add('animated');
``` -/
def comparisonCallback (element : Elem) (_entry : Entry) (w : RevealWorld) : RevealWorld :=
  if "animated" ∈ w.classes element then w
  else { w with classes := fun e =>
          if e = element then classListAdd "animated" (w.classes e) else w.classes e }


/-- The timers `staggerAnimation` registers for the elements from position `k` on,
when the next free timer id is `nextId` and the clock shows `now`. -/
def staggerTimers (now : Nat) (cls : String) (delay : Int) :
    Nat → Nat → List Elem → List (Timer AddClass)
  | _, _, [] => []
  | nextId, k, e :: rest =>
    { id := nextId, due := now + ((k : Int) * delay).toNat,
      callback := { element := e, cls := cls } } ::
      staggerTimers now cls delay (nextId + 1) (k + 1) rest

/-! ## Counter animator (`animateCounter`, `initCounters`)

JavaScript numbers are modelled as `NaN`, the two infinities and the finite values,
given by the rational they denote. The result of `/` and `+` on finite values is the
exact result rounded to binary64 (`toDouble`). The sign of zero is not modelled. -/

/-- A JavaScript Number. -/
inductive JSNum where
  | nan
  | posInf
  | negInf
  | fin (q : ℚ)
deriving DecidableEq

/-- Helper of `log2` with explicit fuel. -/
def log2Fuel : Nat → Nat → Nat
  | 0, _ => 0
  | fuel + 1, n => if n < 2 then 0 else log2Fuel fuel (n / 2) + 1

/-- Position of the highest set bit of a positive natural number. -/
def log2 (n : Nat) : Nat := log2Fuel n n

/-- Rounds a rational to the nearest integer, a tie going to the even one. -/
def roundHalfEven (x : ℚ) : ℤ :=
  if x - (⌊x⌋ : ℚ) < 1 / 2 then ⌊x⌋
  else if 1 / 2 < x - (⌊x⌋ : ℚ) then ⌊x⌋ + 1
  else if ⌊x⌋ % 2 = 0 then ⌊x⌋ else ⌊x⌋ + 1

/-- The binary exponent of a non-zero rational: `2 ^ binade x ≤ |x| < 2 ^ (binade x + 1)`. -/
def binade (x : ℚ) : ℤ :=
  if (2 : ℚ) ^ ((log2 x.num.natAbs : ℤ) - (log2 x.den : ℤ)) ≤ |x| then
    (log2 x.num.natAbs : ℤ) - (log2 x.den : ℤ)
  else (log2 x.num.natAbs : ℤ) - (log2 x.den : ℤ) - 1

/-- Rounds an exact result to binary64: nearest representable value, ties to even,
53 significant bits, gradual underflow below `2^-1022`, overflow to an infinity. -/
def toDouble (x : ℚ) : JSNum :=
  if x = 0 then JSNum.fin 0
  else
    let ulp : ℚ := (2 : ℚ) ^ (max (binade x) (-1022) - 52)
    let r : ℚ := (roundHalfEven (x / ulp) : ℚ) * ulp
    if (2 : ℚ) ^ (1024 : ℤ) ≤ |r| then (if 0 < x then JSNum.posInf else JSNum.negInf)
    else JSNum.fin r

namespace JSNum

/-- Global `isNaN` on a Number. -/
def isNaN : JSNum → Bool
  | nan => true
  | _ => false

/-- JavaScript truthiness of a Number: `NaN` and `0` are falsy. -/
def truthy : JSNum → Bool
  | nan => false
  | fin q => decide (q ≠ 0)
  | _ => true

/-- The operator `/`. -/
def div : JSNum → JSNum → JSNum
  | nan, _ => nan
  | _, nan => nan
  | posInf, posInf => nan
  | posInf, negInf => nan
  | negInf, posInf => nan
  | negInf, negInf => nan
  | posInf, fin b => if 0 ≤ b then posInf else negInf
  | negInf, fin b => if 0 ≤ b then negInf else posInf
  | fin _, posInf => fin 0
  | fin _, negInf => fin 0
  | fin a, fin b =>
    if b = 0 then (if a = 0 then nan else if 0 < a then posInf else negInf)
    else toDouble (a / b)

/-- The operator `+`. -/
def add : JSNum → JSNum → JSNum
  | nan, _ => nan
  | _, nan => nan
  | posInf, negInf => nan
  | negInf, posInf => nan
  | posInf, _ => posInf
  | _, posInf => posInf
  | negInf, _ => negInf
  | _, negInf => negInf
  | fin a, fin b => toDouble (a + b)

/-- The operator `>=`. -/
def ge : JSNum → JSNum → Bool
  | nan, _ => false
  | _, nan => false
  | posInf, _ => true
  | _, negInf => true
  | negInf, _ => false
  | _, posInf => false
  | fin a, fin b => decide (b ≤ a)

/-- The test `x % 1 === 0`: the remainder of a non-finite number is `NaN`, that of a
finite one is its fractional part. -/
def isWhole : JSNum → Bool
  | fin q => decide (q - (if 0 ≤ q then (⌊q⌋ : ℚ) else (⌈q⌉ : ℚ)) = 0)
  | _ => false

/-- `Math.floor`. -/
def floor : JSNum → JSNum
  | fin q => fin (⌊q⌋ : ℚ)
  | x => x

end JSNum

/-- What the animator stores in `textContent`: either a Number, which the DOM turns
into its string `String(x)`, or the string produced by `toFixed(1)` for a number
below `10^21` in magnitude, given by its sign and its count of tenths (the digits of
`tenths` with the decimal point before the last one). -/
inductive Text where
  | number (x : JSNum)
  | fixed (negative : Bool) (tenths : Nat)
deriving DecidableEq

/-- `x.toFixed(1)`: a non-finite number or one of magnitude at least `10^21` yields
`String(x)`; otherwise the magnitude is rounded to the nearest tenth, a tie going to
the larger count of tenths, and the sign is put in front. -/
def toFixed1 : JSNum → Text
  | JSNum.fin q =>
    if (10 : ℚ) ^ 21 ≤ |q| then Text.number (JSNum.fin q)
    else Text.fixed (decide (q < 0)) (⌊|q| * 10 + 1 / 2⌋).toNat
  | x => Text.number x

/-- The number a text denotes. -/
def Text.value : Text → JSNum
  | Text.number x => x
  | Text.fixed negative tenths =>
    JSNum.fin (if negative then -((tenths : ℚ) / 10) else (tenths : ℚ) / 10)

/-- The characters of a text, for the numbers whose `String(x)` is plain decimal
digits: `NaN`, the infinities and the integers below `10^21` in magnitude. -/
def Text.render : Text → Option String
  | Text.number JSNum.nan => some "NaN"
  | Text.number JSNum.posInf => some "Infinity"
  | Text.number JSNum.negInf => some "-Infinity"
  | Text.number (JSNum.fin q) =>
    if q.den = 1 ∧ |q| < (10 : ℚ) ^ 21 then some (toString q.num) else none
  | Text.fixed negative tenths =>
    some ((if negative then "-" else "") ++ toString (tenths / 10) ++ "." ++ toString (tenths % 10))

/-- The closure state of one `setInterval` timer started by `animateCounter`;
`running` turns false when the closure calls `clearInterval(timer)`. -/
structure CounterTimer where
  element : Elem
  target : JSNum
  increment : JSNum
  current : JSNum
  running : Bool

/-- The state the counter code touches: class lists, the text written to each
element (`none` while the animator has not written it), the interval timers in
creation order and the trace of the calls `animateCounter(element, target, duration)`
made by the counter binding. -/
structure CounterWorld where
  classes : Elem → List String
  text : Elem → Option Text
  intervals : List CounterTimer
  animateCalls : List (Elem × JSNum × JSNum)

/-- A page on which no element carries a class, nothing is written, no timer runs. -/
def CounterWorld.fresh : CounterWorld :=
  { classes := fun _ => [], text := fun _ => none, intervals := [], animateCalls := [] }

/-- `animateCounter(element, target, duration = 2000)`; `none` is a null element. -/
def animateCounter (element : Option Elem) (target : JSNum)
    (duration : JSNum := JSNum.fin 2000) (w : CounterWorld) : CounterWorld :=
  match element with
  | none => w
  | some el =>
    if target.isNaN then w
    else
      let increment := target.div (duration.div (JSNum.fin 16))
      { w with intervals := w.intervals ++
          [{ element := el, target := target, increment := increment,
             current := JSNum.fin 0, running := true }] }

/-- The text the closure writes on the tick that cancels the timer:
`target % 1 === 0 ? target : target.toFixed(1)`. -/
def finalText (target : JSNum) : Text :=
  if target.isWhole then Text.number target else toFixed1 target

/-- One run of the interval closure: the new closure state and the text it writes. -/
def CounterTimer.tick (t : CounterTimer) : CounterTimer × Text :=
  let current := t.current.add t.increment
  if current.ge t.target then
    ({ t with current := current, running := false }, finalText t.target)
  else
    ({ t with current := current }, Text.number current.floor)

/-- One 16 ms period of the host: every interval timer that is still running runs
its closure once, in creation order. -/
def tick16 (w : CounterWorld) : CounterWorld :=
  w.intervals.foldl
    (fun st t =>
      if t.running then
        { st with
          text := fun e => if e = t.element then some t.tick.2 else st.text e
          intervals := st.intervals ++ [t.tick.1] }
      else { st with intervals := st.intervals ++ [t] })
    { w with intervals := [] }

/-- The host lets `n` periods of 16 ms pass. -/
def ticks : Nat → CounterWorld → CounterWorld
  | 0, w => w
  | n + 1, w => ticks n (tick16 w)

/-- The static attributes of the counter elements, as the script parses them:
`parseFloat(getAttribute('data-counter'))` and `parseInt(getAttribute('data-duration'))`
(`NaN` for a missing or malformed attribute). -/
structure CounterPage where
  dataCounter : Elem → JSNum
  dataDuration : Elem → JSNum

/-- The expression `parsed || 2000`. -/
def orDefault (parsed : JSNum) (dflt : JSNum) : JSNum :=
  if parsed.truthy then parsed else dflt

/-- The callback `initCounters` hands to `createScrollObserver`. -/
def countersCallback (page : CounterPage) (element : Elem) (_entry : Entry)
    (w : CounterWorld) : CounterWorld :=
  if "counted" ∈ w.classes element then w
  else
    let target := page.dataCounter element
    let duration := orDefault (page.dataDuration element) (JSNum.fin 2000)
    let w1 := animateCounter (some element) target duration w
    { w1 with
      animateCalls := w1.animateCalls ++ [(element, target, duration)]
      classes := fun e => if e = element then classListAdd "counted" (w1.classes e) else w1.classes e }

/-- `initCounters()`: the observer over `[data-counter]` with threshold 0.5. -/
def initCounters (doc : Document) (scrollObservers : List ScrollObserver) :
    List ScrollObserver :=
  (createScrollObserver doc "[data-counter]" (some (1 / 2)) none scrollObservers).2

/-- Some interval timer of the world has not been cancelled yet. -/
def counterRunning (w : CounterWorld) : Bool :=
  w.intervals.any (fun t => t.running)

/-- What one 16 ms period does to a single interval timer. -/
def CounterTimer.step (t : CounterTimer) : CounterTimer :=
  if t.running then t.tick.1 else t



/-- Number of calls `animateCounter(element, …)` the counter binding has made. -/
def callsFor (element : Elem) (w : CounterWorld) : Nat :=
  (w.animateCalls.filter (fun c => c.1 = element)).length

/-- Number of interval timers that write the text of the element. -/
def timersFor (element : Elem) (w : CounterWorld) : Nat :=
  (w.intervals.filter (fun t => t.element = element)).length

/-- Some delivered entry reports the element as intersecting. -/
def everIntersecting (element : Elem) (invocations : List (List Entry)) : Bool :=
  invocations.any (fun entries => entries.any (fun e => e.target = element && e.isIntersecting))

/-- Number of pending timers whose closure adds a class to the element. -/
def pendingFor (element : Elem) (w : RevealWorld) : Nat :=
  (w.timers.pending.filter (fun t => t.callback.element = element)).length

/-- Number of delivered entries that report the element as intersecting. -/
def intersectingCount (element : Elem) (invocations : List (List Entry)) : Nat :=
  (invocations.flatten.filter (fun e => e.target = element && e.isIntersecting)).length

/-! ## `debounce` -/

/-- The closure state of `debounce(func, wait)`: the host timers (each pending timer
holds a closure `later`, represented by the arguments of the call that created it),
the variable `timeout` (`none` is `undefined`) and the trace of the calls
`func(...args)` with the clock time at which they ran. -/
structure Debounced (α : Type) where
  wait : Int
  timers : Timers α
  timeout : Option Nat
  executed : List (Nat × α)

/-- `debounce(func, wait = 250)` on a host whose clock shows `now`. -/
def debounce {α : Type} (wait : Int := 250) (now : Nat := 0) : Debounced α :=
  { wait := wait, timers := Timers.fresh now, timeout := none, executed := [] }

/-- A call `executedFunction(...args)`:
`clearTimeout(timeout); timeout = setTimeout(later, wait);`. -/
def Debounced.call {α : Type} (d : Debounced α) (args : α) : Debounced α :=
  let cleared := d.timers.clearTimeout d.timeout
  let registered := cleared.setTimeout args d.wait
  { d with timers := registered.1, timeout := some registered.2 }

/-- The host fires the next pending timer; its closure `later` runs
`clearTimeout(timeout); func(...args);`. -/
def Debounced.fire {α : Type} (d : Debounced α) : Option (Debounced α) :=
  match d.timers.pop with
  | none => none
  | some (x, timers) =>
    some { d with
           timers := timers.clearTimeout d.timeout
           executed := d.executed ++ [(timers.now, x.callback)] }

/-- Fires, in due order, the timers that are due at clock time `target` or before. -/
def Debounced.fireDue {α : Type} (target : Nat) : Nat → Debounced α → Debounced α
  | 0, d => d
  | fuel + 1, d =>
    match earliest d.timers.pending with
    | none => d
    | some x =>
      if x.due ≤ target then
        match d.fire with
        | some d1 => Debounced.fireDue target fuel d1
        | none => d
      else d

/-- The simulated clock advances by `dt` ms: the timers that come due fire at their
due time (`later` registers no timer, so one step per pending timer is enough), then
the clock shows `now + dt`. -/
def Debounced.advance {α : Type} (d : Debounced α) (dt : Nat) : Debounced α :=
  let target := d.timers.now + dt
  let d1 := Debounced.fireDue target d.timers.pending.length d
  { d1 with timers := { d1.timers with now := target } }

/-- What happens to a debounced function: it is called, or time passes. -/
inductive DebounceEvent (α : Type) where
  | call (args : α)
  | advance (dt : Nat)

/-- One event. -/
def Debounced.step {α : Type} (d : Debounced α) : DebounceEvent α → Debounced α
  | .call args => d.call args
  | .advance dt => d.advance dt

/-- A sequence of events. -/
def Debounced.run {α : Type} (d : Debounced α) (events : List (DebounceEvent α)) :
    Debounced α :=
  events.foldl Debounced.step d

/-- The calls of an event sequence with the clock time at which each is made. -/
def callTimes {α : Type} : Nat → List (DebounceEvent α) → List (Nat × α)
  | _, [] => []
  | now, .call args :: rest => (now, args) :: callTimes now rest
  | now, .advance dt :: rest => callTimes (now + dt) rest

/-- The executions of `func` a debounce with delay `wait` owes to a sequence of timed
calls: one for each call that is not followed by another call less than `wait` ms
later, with that call's arguments, `wait` ms after it. -/
def debounceExpected {α : Type} (wait : Nat) : List (Nat × α) → List (Nat × α)
  | [] => []
  | (t, args) :: rest =>
    (if rest.any (fun c => decide (c.1 < t + wait)) then [] else [(t + wait, args)]) ++
      debounceExpected wait rest

/-! # Theorems -/

/-! ## Modal system -/

theorem openAll_append (page : ModalPage) (xs ys : List String) (s : ModalState) :
    openAll page (xs ++ ys) s = openAll page ys (openAll page xs s) := by
  simp [openAll, List.foldl_append]

/-- Shape of the state reached by opening distinct existing modals from the initial state. -/
theorem openAll_init (page : ModalPage) (ms : List String)
    (hex : ∀ m ∈ ms, page.hasElement m = true) (hnd : ms.Nodup) :
    openAll page ms ModalState.init =
      { activeModals := ms, active := ms, bodyHtml := [],
        overflow := if ms = [] then "" else "hidden" } := by
  induction ms using List.reverseRecOn with
  | nil => rfl
  | append_singleton xs m ih =>
    have hx : ∀ x ∈ xs, page.hasElement x = true := fun x hxm => hex x (by simp [hxm])
    have hnd2 := List.nodup_append.mp hnd
    have hm : m ∉ xs := fun h => hnd2.2.2 h (by simp)
    rw [openAll_append, ih hx hnd2.1]
    simp [openAll, openModal, hex m (by simp), classListAdd, hm]

theorem filter_ne_of_not_mem (m : String) (l : List String) (hl : m ∉ l) :
    l.filter (fun id => decide (id ≠ m)) = l := by
  apply List.filter_eq_self.mpr
  intro a ha
  simp only [ne_eq, decide_not, Bool.not_eq_eq_eq_not, Bool.not_true, decide_eq_false_iff_not]
  rintro rfl
  exact hl ha

theorem filter_ne_append_self (m : String) (l : List String) (hl : m ∉ l) :
    (l ++ [m]).filter (fun id => decide (id ≠ m)) = l := by
  rw [List.filter_append, filter_ne_of_not_mem m l hl]
  simp

theorem keydown_last (page : ModalPage) (xs : List String) (m : String) (html : List (String × String))
    (hm : page.hasElement m = true) (hnot : m ∉ xs) :
    keydown page "Escape"
        { activeModals := xs ++ [m], active := xs ++ [m], bodyHtml := html, overflow := "hidden" } =
      { activeModals := xs, active := xs, bodyHtml := html,
        overflow := if xs = [] then "" else "hidden" } := by
  have h1 : keydown page "Escape"
        { activeModals := xs ++ [m], active := xs ++ [m], bodyHtml := html, overflow := "hidden" } =
      closeModal page m
        { activeModals := xs ++ [m], active := xs ++ [m], bodyHtml := html, overflow := "hidden" } := by
    simp [keydown]
  rw [h1]
  unfold closeModal classListRemove
  simp only [hm, Bool.not_true, Bool.false_eq_true, if_false, filter_ne_append_self m xs hnot,
    List.length_eq_zero]

theorem pressEscape_opened (page : ModalPage) (ms : List String)
    (hex : ∀ m ∈ ms, page.hasElement m = true) (hnd : ms.Nodup) :
    ∀ k, k ≤ ms.length →
      pressEscape page k
          { activeModals := ms, active := ms, bodyHtml := [],
            overflow := if ms = [] then "" else "hidden" } =
        { activeModals := ms.take (ms.length - k), active := ms.take (ms.length - k),
          bodyHtml := [],
          overflow := if ms.take (ms.length - k) = [] then "" else "hidden" } ∧
      escapeClosed page k
          { activeModals := ms, active := ms, bodyHtml := [],
            overflow := if ms = [] then "" else "hidden" } = ms.reverse.take k := by
  induction ms using List.reverseRecOn with
  | nil =>
    intro k hk
    have : k = 0 := by simpa using hk
    subst this
    simp [pressEscape, escapeClosed]
  | append_singleton xs m ih =>
    intro k hk
    have hx : ∀ x ∈ xs, page.hasElement x = true := fun x hxm => hex x (by simp [hxm])
    have hnd2 := List.nodup_append.mp hnd
    have hm : m ∉ xs := fun h => hnd2.2.2 h (by simp)
    cases k with
    | zero => simp [pressEscape, escapeClosed]
    | succ k =>
      have hk2 : k ≤ xs.length := by simpa using hk
      have hne : (xs ++ [m] = []) = False := by simp
      have hkd := keydown_last page xs m [] (hex m (by simp)) hm
      obtain ⟨h1, h2⟩ := ih hx hnd2.1 k hk2
      have hlen : (xs ++ [m]).length - (k + 1) = xs.length - k := by simp
      have htake : (xs ++ [m]).take (xs.length - k) = xs.take (xs.length - k) :=
        List.take_append_of_le_length (Nat.sub_le _ _)
      constructor
      · simp only [pressEscape, hne, if_false, hkd, h1, hlen, htake]
      · have ht : keydownTarget "Escape"
            { activeModals := xs ++ [m], active := xs ++ [m], bodyHtml := [],
              overflow := "hidden" } = some m := by
          simp [keydownTarget]
        simp only [escapeClosed, hne, if_false, hkd, h2, ht]
        simp

/-- C4: opening distinct existing modals `m1 … mn` from the initial state and then
pressing Escape `n` times calls `closeModal` on `mn, …, m1` in that order; the body
scroll lock stays `'hidden'` after each of the first `n - 1` presses and is released
(`''`) by the `n`-th, when no modal is left active. -/
theorem escape_closes_last_opened_first (page : ModalPage) (ms : List String)
    (hnd : ms.Nodup) (hex : ∀ m ∈ ms, page.hasElement m = true) :
    escapeClosed page ms.length (openAll page ms ModalState.init) = ms.reverse ∧
    (∀ k, k < ms.length →
      (pressEscape page k (openAll page ms ModalState.init)).overflow = "hidden" ∧
      (pressEscape page k (openAll page ms ModalState.init)).active = ms.take (ms.length - k)) ∧
    (pressEscape page ms.length (openAll page ms ModalState.init)).overflow = "" ∧
    (pressEscape page ms.length (openAll page ms ModalState.init)).active = [] ∧
    (pressEscape page ms.length (openAll page ms ModalState.init)).activeModals = [] := by
  rw [openAll_init page ms hex hnd]
  refine ⟨?_, ?_, ?_⟩
  · rw [(pressEscape_opened page ms hex hnd ms.length le_rfl).2]
    simp
  · intro k hk
    rw [(pressEscape_opened page ms hex hnd k hk.le).1]
    have : ms.take (ms.length - k) ≠ [] := by
      intro h
      have := congrArg List.length h
      simp at this
      omega
    simp [this]
  · rw [(pressEscape_opened page ms hex hnd ms.length le_rfl).1]
    simp

/-- Witness for C4: open "A", open "B", Escape, Escape closes "B" then "A" and releases
the scroll lock only on the second press. -/
theorem escape_closes_last_opened_first_witness :
    escapeClosed ⟨["A", "B"], []⟩ 2 (openAll ⟨["A", "B"], []⟩ ["A", "B"] ModalState.init)
      = ["B", "A"] ∧
    (pressEscape ⟨["A", "B"], []⟩ 1 (openAll ⟨["A", "B"], []⟩ ["A", "B"] ModalState.init)).overflow
      = "hidden" ∧
    (pressEscape ⟨["A", "B"], []⟩ 2 (openAll ⟨["A", "B"], []⟩ ["A", "B"] ModalState.init)).overflow
      = "" := by
  have h := escape_closes_last_opened_first ⟨["A", "B"], []⟩ ["A", "B"] (by decide) (by decide)
  exact ⟨h.1, (h.2.1 1 (by decide)).1, h.2.2.1⟩

theorem modalInv_init (page : ModalPage) : ModalInv page ModalState.init :=
  ⟨by simp [ModalState.init], by simp [ModalState.init], by simp [ModalState.init]⟩

theorem modalInv_openModal (page : ModalPage) (id : String) (content : Option String)
    (s : ModalState) (h : ModalInv page s) : ModalInv page (openModal page id content s) := by
  unfold openModal
  by_cases hex : page.hasElement id = true
  · simp only [hex, Bool.not_true, Bool.false_eq_true, if_false]
    refine ⟨by simp, ?_, ?_⟩
    · intro x
      simp only [classListAdd, List.mem_append, List.mem_singleton]
      by_cases hin : id ∈ s.active
      · simp only [hin, if_true]
        constructor
        · intro hx; exact Or.inl ((h.active_iff x).mp hx)
        · rintro (hx | rfl)
          · exact (h.active_iff x).mpr hx
          · exact hin
      · simp only [hin, if_false, List.mem_append, List.mem_singleton, h.active_iff x]
    · intro x hx
      rcases List.mem_append.mp hx with hx | hx
      · exact h.listed_exist x hx
      · simp at hx; subst hx; exact hex
  · simp only [Bool.not_eq_true] at hex
    simpa [hex] using h

theorem modalInv_closeModal (page : ModalPage) (id : String)
    (s : ModalState) (h : ModalInv page s) : ModalInv page (closeModal page id s) := by
  unfold closeModal
  by_cases hex : page.hasElement id = true
  · simp only [hex, Bool.not_true, Bool.false_eq_true, if_false]
    refine ⟨?_, ?_, ?_⟩
    · by_cases hr : s.activeModals.filter (fun x => decide (x ≠ id)) = []
      · simp only [hr, List.length_nil, if_true]
        simp
      · have hlen : ¬ (s.activeModals.filter (fun x => decide (x ≠ id))).length = 0 := by
          simpa [List.length_eq_zero] using hr
        have hne : s.activeModals ≠ [] := by
          intro h0; apply hr; simp [h0]
        simp only [hlen, if_false, h.overflow_iff]
        exact ⟨fun _ => hr, fun _ => hne⟩
    · intro x
      simp only [classListRemove, List.mem_filter, h.active_iff x]
    · intro x hx
      exact h.listed_exist x (List.mem_filter.mp hx).1
  · simp only [Bool.not_eq_true] at hex
    simpa [hex] using h

theorem modalInv_keydown (page : ModalPage) (key : String)
    (s : ModalState) (h : ModalInv page s) : ModalInv page (keydown page key s) := by
  unfold keydown
  split
  · split
    · exact modalInv_closeModal page _ s h
    · exact h
  · exact h

/-- C10: starting from the initial state, after every finite sequence of `openModal`,
`closeModal` and key presses with arbitrary ids, body overflow is `'hidden'` exactly
when `APP.activeModals` is non-empty, and a modal carries the class `active` exactly
when its id occurs in `APP.activeModals`. -/
theorem modal_invariant (page : ModalPage) (ops : List ModalOp) :
    ((runModalOps page ops ModalState.init).overflow = "hidden" ↔
      (runModalOps page ops ModalState.init).activeModals ≠ []) ∧
    (∀ id, id ∈ (runModalOps page ops ModalState.init).active ↔
      id ∈ (runModalOps page ops ModalState.init).activeModals) := by
  have key : ∀ (ops : List ModalOp) (s : ModalState), ModalInv page s →
      ModalInv page (runModalOps page ops s) := by
    intro ops
    induction ops with
    | nil => intro s hs; exact hs
    | cons op rest ih =>
      intro s hs
      have hstep : ModalInv page (ModalOp.apply page s op) := by
        cases op with
        | openModal id content => exact modalInv_openModal page id content s hs
        | closeModal id => exact modalInv_closeModal page id s hs
        | keydown k => exact modalInv_keydown page k s hs
      exact ih _ hstep
  have h := key ops ModalState.init (modalInv_init page)
  exact ⟨h.overflow_iff, h.active_iff⟩



/-! ## Scroll observer factory -/

theorem observerCallback_eq_filter {σ : Type} (callback : Elem → Entry → σ → σ)
    (entries : List Entry) (s : σ) :
    observerCallback callback entries s =
      (entries.filter (fun e => e.isIntersecting)).foldl
        (fun st e => callback e.target e st) s := by
  unfold observerCallback
  induction entries generalizing s with
  | nil => rfl
  | cons e rest ih =>
    by_cases h : e.isIntersecting = true
    · simp only [List.foldl_cons, h, if_true, List.filter_cons_of_pos]
      exact ih _
    · simp only [List.foldl_cons, h, Bool.false_eq_true, if_false, List.filter_cons_of_neg,
        not_false_eq_true]
      exact ih _

theorem foldl_recordCall (es : List Entry) (calls : List (Elem × Entry)) :
    es.foldl (fun st e => recordCall e.target e st) calls =
      calls ++ es.map (fun e => (e.target, e)) := by
  induction es generalizing calls with
  | nil => simp
  | cons e rest ih =>
    simp only [List.foldl_cons, List.map_cons]
    rw [ih]
    simp [recordCall]

theorem deliver_recordCall (invocations : List (List Entry)) (calls : List (Elem × Entry)) :
    deliver recordCall invocations calls =
      calls ++ (invocations.map (fun entries =>
        (entries.filter (fun e => e.isIntersecting)).map (fun e => (e.target, e)))).flatten := by
  unfold deliver
  induction invocations generalizing calls with
  | nil => simp
  | cons entries rest ih =>
    simp only [List.foldl_cons, List.map_cons, List.flatten_cons]
    rw [ih, observerCallback_eq_filter, foldl_recordCall, List.append_assoc]

/-- C7: one watcher callback invocation calls `callback(entry.target, entry)` exactly
for the entries whose `isIntersecting` is true, once each and in the reported order
(stated for an arbitrary callback as a state transformer and for the recording
callback); entries that are not intersecting cause no call, and over several
invocations the calls are simply concatenated: nothing is deduplicated. -/
theorem observer_calls_exactly_intersecting_entries {σ : Type}
    (callback : Elem → Entry → σ → σ) (entries : List Entry) (s : σ)
    (invocations : List (List Entry)) :
    observerCallback callback entries s =
      (entries.filter (fun e => e.isIntersecting)).foldl
        (fun st e => callback e.target e st) s ∧
    observerCallback recordCall entries [] =
      (entries.filter (fun e => e.isIntersecting)).map (fun e => (e.target, e)) ∧
    deliver recordCall invocations [] =
      (invocations.map (fun es =>
        (es.filter (fun e => e.isIntersecting)).map (fun e => (e.target, e)))).flatten := by
  refine ⟨observerCallback_eq_filter callback entries s, ?_, ?_⟩
  · rw [observerCallback_eq_filter, foldl_recordCall]; simp
  · rw [deliver_recordCall]; simp


/-! ## Stagger scheduler -/

theorem earliest_mem {κ : Type} (l : List (Timer κ)) (x : Timer κ) (h : earliest l = some x) :
    x ∈ l := by
  induction l generalizing x with
  | nil => simp [earliest] at h
  | cons a rest ih =>
    simp only [earliest] at h
    cases hr : earliest rest with
    | none =>
      rw [hr] at h
      simp only [Option.some.injEq] at h
      subst h; simp
    | some y =>
      rw [hr] at h
      by_cases hle : a.due ≤ y.due
      · simp only [hle, if_true, Option.some.injEq] at h
        subst h; simp
      · simp only [hle, if_false, Option.some.injEq] at h
        subst h
        exact List.mem_cons_of_mem _ (ih _ hr)

theorem earliest_head {κ : Type} (x : Timer κ) (rest : List (Timer κ))
    (h : ∀ y ∈ rest, x.due ≤ y.due) : earliest (x :: rest) = some x := by
  simp only [earliest]
  cases hr : earliest rest with
  | none => rfl
  | some y => simp [h y (earliest_mem rest y hr)]

/-- Timers that are sorted by due time, carry distinct ids and are not overdue fire in
list order, each at its due time. -/
theorem runTimers_sorted (pending : List (Timer AddClass)) :
    ∀ (classes : Elem → List String) (now nextId : Nat) (fired : List (Nat × AddClass)),
      pending.Pairwise (fun a b => a.due ≤ b.due) →
      (pending.map (fun t => t.id)).Nodup →
      (∀ t ∈ pending, now ≤ t.due) →
      (runTimers pending.length
          { classes := classes, timers := { now := now, nextId := nextId, pending := pending },
            fired := fired }).fired = fired ++ pending.map (fun t => (t.due, t.callback)) ∧
      (runTimers pending.length
          { classes := classes, timers := { now := now, nextId := nextId, pending := pending },
            fired := fired }).timers.pending = [] := by
  induction pending with
  | nil => intro classes now nextId fired _ _ _; simp [runTimers]
  | cons x rest ih =>
    intro classes now nextId fired hs hn hnow
    have hs2 := List.pairwise_cons.mp hs
    have hn2 := List.nodup_cons.mp (by simpa using hn : (x.id :: rest.map (fun t => t.id)).Nodup)
    have hfilter : (x :: rest).filter (fun p => decide (p.id ≠ x.id)) = rest := by
      rw [List.filter_cons_of_neg (by simp)]
      apply List.filter_eq_self.mpr
      intro a ha
      simp only [ne_eq, decide_not, Bool.not_eq_eq_eq_not, Bool.not_true, decide_eq_false_iff_not]
      intro hid
      exact hn2.1 (List.mem_map.mpr ⟨a, ha, hid⟩)
    have hmax : max now x.due = x.due := max_eq_right (hnow x (by simp))
    have hfire : fireNext
        { classes := classes, timers := { now := now, nextId := nextId, pending := x :: rest },
          fired := fired } =
        some { classes := x.callback.run classes,
               timers := { now := x.due, nextId := nextId, pending := rest },
               fired := fired ++ [(x.due, x.callback)] } := by
      simp only [fireNext, Timers.pop, earliest_head x rest hs2.1, hfilter, hmax]
    have hrest := ih (x.callback.run classes) x.due nextId (fired ++ [(x.due, x.callback)])
      hs2.2 hn2.2 (fun t ht => hs2.1 t ht)
    simp only [List.length_cons, runTimers, hfire]
    refine ⟨?_, hrest.2⟩
    rw [hrest.1]
    simp

theorem stagger_foldl (cls : String) (delay : Int) (elements : List Elem) :
    ∀ (k : Nat) (w : RevealWorld),
      (elements.enumFrom k).foldl
        (fun st (p : Nat × Elem) => scheduleAddClass p.2 cls ((p.1 : Int) * delay) st) w =
        { classes := w.classes
          timers := { now := w.timers.now
                      nextId := w.timers.nextId + elements.length
                      pending := w.timers.pending ++
                        staggerTimers w.timers.now cls delay w.timers.nextId k elements }
          fired := w.fired } := by
  induction elements with
  | nil => intro k w; simp [staggerTimers]
  | cons e rest ih =>
    intro k w
    simp only [List.enumFrom_cons, List.foldl_cons]
    rw [ih]
    simp only [scheduleAddClass, Timers.setTimeout, staggerTimers, List.length_cons,
      List.append_assoc, List.singleton_append]
    congr 2
    omega

theorem staggerTimers_map (now : Nat) (cls : String) (D : Nat) (elements : List Elem) :
    ∀ (nextId k : Nat),
      (staggerTimers now cls (D : Int) nextId k elements).map (fun t => (t.due, t.callback)) =
        (elements.enumFrom k).map
          (fun p => (now + p.1 * D, ({ element := p.2, cls := cls } : AddClass))) := by
  induction elements with
  | nil => intro nextId k; rfl
  | cons e rest ih =>
    intro nextId k
    have hk : ((k : Int) * (D : Int)).toNat = k * D := by
      rw [← Nat.cast_mul]; exact Int.toNat_natCast _
    simp only [staggerTimers, List.map_cons, List.enumFrom_cons, ih, hk]

theorem staggerTimers_ids (now : Nat) (cls : String) (delay : Int) (elements : List Elem) :
    ∀ (nextId k : Nat),
      (staggerTimers now cls delay nextId k elements).map (fun t => t.id) =
        List.range' nextId elements.length := by
  induction elements with
  | nil => intro nextId k; rfl
  | cons e rest ih =>
    intro nextId k
    simp only [staggerTimers, List.map_cons, ih, List.length_cons, List.range'_succ]

theorem staggerTimers_due_ge (now : Nat) (cls : String) (D : Nat) (elements : List Elem) :
    ∀ (nextId k : Nat), ∀ t ∈ staggerTimers now cls (D : Int) nextId k elements,
      now + k * D ≤ t.due := by
  induction elements with
  | nil => intro nextId k t ht; simp [staggerTimers] at ht
  | cons e rest ih =>
    intro nextId k t ht
    have hk : ((k : Int) * (D : Int)).toNat = k * D := by
      rw [← Nat.cast_mul]; exact Int.toNat_natCast _
    simp only [staggerTimers, List.mem_cons] at ht
    rcases ht with rfl | ht
    · simp [hk]
    · have := ih (nextId + 1) (k + 1) t ht
      have h2 : k * D ≤ (k + 1) * D := Nat.mul_le_mul_right D (Nat.le_succ k)
      omega

theorem staggerTimers_sorted (now : Nat) (cls : String) (D : Nat) (elements : List Elem) :
    ∀ (nextId k : Nat),
      (staggerTimers now cls (D : Int) nextId k elements).Pairwise (fun a b => a.due ≤ b.due) := by
  induction elements with
  | nil => intro nextId k; simp [staggerTimers]
  | cons e rest ih =>
    intro nextId k
    have hk : ((k : Int) * (D : Int)).toNat = k * D := by
      rw [← Nat.cast_mul]; exact Int.toNat_natCast _
    simp only [staggerTimers, List.pairwise_cons, hk]
    refine ⟨?_, ih _ _⟩
    intro t ht
    have := staggerTimers_due_ge now cls D rest (nextId + 1) (k + 1) t ht
    have h2 : k * D ≤ (k + 1) * D := Nat.mul_le_mul_right D (Nat.le_succ k)
    omega

/-- C8: for `N` elements, a class and a delay `D ≥ 0`, `staggerAnimation` registers
exactly `N` one-shot timers, the one for 0-based position `i` due `i * D` ms after
the call and adding the class to exactly that element; on the simulated clock the
closure for position `i` runs at time `now + i * D`, the closures run in index
order, and afterwards no timer is pending. -/
theorem stagger_registers_and_fires_in_index_order (elements : List Elem) (cls : String)
    (D now : Nat) :
    (staggerAnimation elements cls (D : Int) (RevealWorld.fresh now)).timers.pending.length =
      elements.length ∧
    (staggerAnimation elements cls (D : Int) (RevealWorld.fresh now)).timers.pending.map
        (fun t => (t.due, t.callback)) =
      elements.enum.map (fun p => (now + p.1 * D, ({ element := p.2, cls := cls } : AddClass))) ∧
    (flushTimers (staggerAnimation elements cls (D : Int) (RevealWorld.fresh now))).fired =
      elements.enum.map (fun p => (now + p.1 * D, ({ element := p.2, cls := cls } : AddClass))) ∧
    (flushTimers (staggerAnimation elements cls (D : Int) (RevealWorld.fresh now))).timers.pending
      = [] := by
  have hw : staggerAnimation elements cls (D : Int) (RevealWorld.fresh now) =
      { classes := fun _ => []
        timers := { now := now, nextId := 1 + elements.length,
                    pending := staggerTimers now cls (D : Int) 1 0 elements }
        fired := [] } := by
    unfold staggerAnimation List.enum
    rw [stagger_foldl]
    simp [RevealWorld.fresh, Timers.fresh]
  have hmap := staggerTimers_map now cls D elements 1 0
  have hlen : (staggerTimers now cls (D : Int) 1 0 elements).length = elements.length := by
    have := congrArg List.length (staggerTimers_ids now cls (D : Int) elements 1 0)
    simpa using this
  have hrun := runTimers_sorted (staggerTimers now cls (D : Int) 1 0 elements) (fun _ => []) now
    (1 + elements.length) [] (staggerTimers_sorted now cls D elements 1 0)
    (by rw [staggerTimers_ids]; exact List.nodup_range' _ _)
    (fun t ht => by
      have := staggerTimers_due_ge now cls D elements 1 0 t ht
      omega)
  rw [hw]
  refine ⟨hlen, ?_, ?_, ?_⟩
  · exact hmap
  · unfold flushTimers
    rw [hrun.1, hmap]
    rfl
  · unfold flushTimers
    exact hrun.2



/-! ## Rounding to binary64 -/

theorem log2Fuel_spec : ∀ (fuel n : Nat), n ≤ fuel → 1 ≤ n →
    2 ^ log2Fuel fuel n ≤ n ∧ n < 2 ^ (log2Fuel fuel n + 1) := by
  intro fuel
  induction fuel with
  | zero => intro n h1 h2; omega
  | succ fuel ih =>
    intro n hn h1
    unfold log2Fuel
    by_cases h2 : n < 2
    · simp only [h2, if_true]
      have : n = 1 := by omega
      subst this
      simp
    · simp only [h2, if_false]
      have hdiv : n / 2 ≤ fuel := by omega
      have hpos : 1 ≤ n / 2 := by omega
      obtain ⟨g1, g2⟩ := ih (n / 2) hdiv hpos
      constructor
      · rw [pow_succ]; omega
      · rw [pow_succ]; omega

theorem log2_spec (n : Nat) (h : 1 ≤ n) : 2 ^ log2 n ≤ n ∧ n < 2 ^ (log2 n + 1) :=
  log2Fuel_spec n n le_rfl h

theorem binade_spec (x : ℚ) (hx : 0 < x) :
    (2 : ℚ) ^ binade x ≤ x ∧ x < (2 : ℚ) ^ (binade x + 1) := by
  have hnum : 0 < x.num := Rat.num_pos.mpr hx
  have hden : 0 < x.den := x.den_pos
  have hn1 : 1 ≤ x.num.natAbs := by omega
  obtain ⟨a1, a2⟩ := log2_spec x.num.natAbs hn1
  obtain ⟨b1, b2⟩ := log2_spec x.den hden
  have hxD : x * (x.den : ℚ) = (x.num.natAbs : ℚ) := by
    have hc : (x.num.natAbs : ℚ) = (x.num : ℚ) := by
      rw [Nat.cast_natAbs, abs_of_pos hnum]
    rw [hc]
    exact Rat.mul_den_eq_num x
  unfold binade
  rw [abs_of_pos hx]
  generalize x.num.natAbs = N at a1 a2 hxD ⊢
  generalize x.den = D at b1 b2 hxD ⊢
  generalize log2 N = a at a1 a2 ⊢
  generalize log2 D = b at b1 b2 ⊢
  have a1q : (2 : ℚ) ^ a ≤ (N : ℚ) := by exact_mod_cast a1
  have a2q : (N : ℚ) < (2 : ℚ) ^ (a + 1) := by exact_mod_cast a2
  have b1q : (2 : ℚ) ^ b ≤ (D : ℚ) := by exact_mod_cast b1
  have b2q : (D : ℚ) < (2 : ℚ) ^ (b + 1) := by exact_mod_cast b2
  have h2ne : (2 : ℚ) ≠ 0 := by norm_num
  have hlow : (2 : ℚ) ^ ((a : ℤ) - (b : ℤ) - 1) < x := by
    have : (2 : ℚ) ^ ((a : ℤ) - (b : ℤ) - 1) = (2 : ℚ) ^ a / (2 : ℚ) ^ (b + 1) := by
      rw [show ((a : ℤ) - (b : ℤ) - 1) = ((a : ℕ) : ℤ) - ((b + 1 : ℕ) : ℤ) by push_cast; ring]
      rw [zpow_sub₀ h2ne, zpow_natCast, zpow_natCast]
    rw [this, div_lt_iff₀ (by positivity)]
    calc (2 : ℚ) ^ a ≤ (N : ℚ) := a1q
      _ = x * (D : ℚ) := hxD.symm
      _ < x * (2 : ℚ) ^ (b + 1) := mul_lt_mul_of_pos_left b2q hx
  have hhigh : x < (2 : ℚ) ^ ((a : ℤ) - (b : ℤ) + 1) := by
    have : (2 : ℚ) ^ ((a : ℤ) - (b : ℤ) + 1) = (2 : ℚ) ^ (a + 1) / (2 : ℚ) ^ b := by
      rw [show ((a : ℤ) - (b : ℤ) + 1) = ((a + 1 : ℕ) : ℤ) - ((b : ℕ) : ℤ) by push_cast; ring]
      rw [zpow_sub₀ h2ne, zpow_natCast, zpow_natCast]
    rw [this, lt_div_iff₀ (by positivity)]
    calc x * (2 : ℚ) ^ b ≤ x * (D : ℚ) := mul_le_mul_of_nonneg_left b1q hx.le
      _ = (N : ℚ) := hxD
      _ < (2 : ℚ) ^ (a + 1) := a2q
  by_cases hc : (2 : ℚ) ^ ((a : ℤ) - (b : ℤ)) ≤ x
  · rw [if_pos hc]
    exact ⟨hc, hhigh⟩
  · rw [if_neg hc]
    refine ⟨hlow.le, ?_⟩
    rw [sub_add_cancel]
    exact not_le.mp hc

theorem roundHalfEven_err (y : ℚ) : |(roundHalfEven y : ℚ) - y| ≤ 1 / 2 := by
  have h1 := Int.floor_le y
  have h2 := Int.lt_floor_add_one y
  unfold roundHalfEven
  rw [abs_le]
  split_ifs with c1 c2 c3
  · constructor <;> linarith
  · push_cast; constructor <;> linarith
  · have : y - (⌊y⌋ : ℚ) = 1 / 2 := le_antisymm (not_lt.mp c2) (not_lt.mp c1)
    constructor <;> linarith
  · have : y - (⌊y⌋ : ℚ) = 1 / 2 := le_antisymm (not_lt.mp c2) (not_lt.mp c1)
    push_cast; constructor <;> linarith

theorem roundHalfEven_nonneg (y : ℚ) (hy : 0 ≤ y) : 0 ≤ roundHalfEven y := by
  have h0 : 0 ≤ ⌊y⌋ := Int.floor_nonneg.mpr hy
  unfold roundHalfEven
  split_ifs <;> omega

theorem roundHalfEven_nonpos (y : ℚ) (hy : y ≤ 0) : roundHalfEven y ≤ 0 := by
  have h1 := Int.floor_le y
  have h2 := Int.lt_floor_add_one y
  unfold roundHalfEven
  split_ifs with c1 c2 c3
  · exact Int.floor_nonpos hy
  · have : (⌊y⌋ : ℚ) < -1 / 2 := by linarith
    have : ⌊y⌋ < 0 := by
      by_contra hc
      push_neg at hc
      have : (0 : ℚ) ≤ (⌊y⌋ : ℚ) := by exact_mod_cast hc
      linarith
    omega
  · exact Int.floor_nonpos hy
  · have : (⌊y⌋ : ℚ) < 0 := by linarith [not_lt.mp c1]
    have : ⌊y⌋ < 0 := by exact_mod_cast this
    omega

theorem toDouble_zero : toDouble 0 = JSNum.fin 0 := by
  simp [toDouble]

/-- Rounding a positive number of the normal range: the result is within a relative
error of `2^-53`, unless it overflows to `+Infinity`. -/
theorem toDouble_normal (x : ℚ) (hx : (2 : ℚ) ^ (-1022 : ℤ) ≤ x) :
    ∃ r : ℚ, 0 ≤ r ∧ |r - x| ≤ x * (2 : ℚ) ^ (-53 : ℤ) ∧
      toDouble x = (if (2 : ℚ) ^ (1024 : ℤ) ≤ r then JSNum.posInf else JSNum.fin r) := by
  have hpos : 0 < x := lt_of_lt_of_le (by positivity) hx
  obtain ⟨hb1, hb2⟩ := binade_spec x hpos
  have he : (-1022 : ℤ) ≤ binade x := by
    have h := lt_of_le_of_lt hx hb2
    have := (zpow_lt_zpow_iff_right₀ (by norm_num : (1 : ℚ) < 2)).mp h
    omega
  have hmax : max (binade x) (-1022) = binade x := max_eq_left he
  have hulp : (0 : ℚ) < (2 : ℚ) ^ (binade x - 52) := by positivity
  refine ⟨(roundHalfEven (x / (2 : ℚ) ^ (binade x - 52)) : ℚ) * (2 : ℚ) ^ (binade x - 52), ?_, ?_, ?_⟩
  · have h0 : 0 ≤ roundHalfEven (x / (2 : ℚ) ^ (binade x - 52)) :=
      roundHalfEven_nonneg _ (by positivity)
    have : (0 : ℚ) ≤ (roundHalfEven (x / (2 : ℚ) ^ (binade x - 52)) : ℚ) := by exact_mod_cast h0
    positivity
  · have herr := roundHalfEven_err (x / (2 : ℚ) ^ (binade x - 52))
    have hx2 : x = x / (2 : ℚ) ^ (binade x - 52) * (2 : ℚ) ^ (binade x - 52) := by
      field_simp
    have hdiff : (roundHalfEven (x / (2 : ℚ) ^ (binade x - 52)) : ℚ) * (2 : ℚ) ^ (binade x - 52) - x =
        ((roundHalfEven (x / (2 : ℚ) ^ (binade x - 52)) : ℚ) - x / (2 : ℚ) ^ (binade x - 52)) *
          (2 : ℚ) ^ (binade x - 52) := by
      rw [sub_mul, ← hx2]
    rw [hdiff, abs_mul, abs_of_pos hulp]
    have hsplit : (2 : ℚ) ^ (binade x - 52) = (2 : ℚ) ^ (binade x) * (2 : ℚ) ^ (-53 : ℤ) * 2 := by
      rw [show binade x - 52 = binade x + (-53) + 1 by ring, zpow_add₀ (by norm_num),
        zpow_add₀ (by norm_num)]
      norm_num
    calc |(roundHalfEven (x / (2 : ℚ) ^ (binade x - 52)) : ℚ) - x / (2 : ℚ) ^ (binade x - 52)| *
          (2 : ℚ) ^ (binade x - 52)
        ≤ 1 / 2 * (2 : ℚ) ^ (binade x - 52) := mul_le_mul_of_nonneg_right herr hulp.le
      _ = (2 : ℚ) ^ (binade x) * (2 : ℚ) ^ (-53 : ℤ) := by rw [hsplit]; ring
      _ ≤ x * (2 : ℚ) ^ (-53 : ℤ) := mul_le_mul_of_nonneg_right hb1 (by positivity)
  · have h0 : 0 ≤ roundHalfEven (x / (2 : ℚ) ^ (binade x - 52)) :=
      roundHalfEven_nonneg _ (by positivity)
    have hr : (0 : ℚ) ≤ (roundHalfEven (x / (2 : ℚ) ^ (binade x - 52)) : ℚ) *
        (2 : ℚ) ^ (binade x - 52) := by
      have : (0 : ℚ) ≤ (roundHalfEven (x / (2 : ℚ) ^ (binade x - 52)) : ℚ) := by exact_mod_cast h0
      positivity
    simp only [toDouble, hpos.ne', if_false, hmax, abs_of_nonneg hr, hpos, if_true]

theorem toDouble_nonpos (x : ℚ) (hx : x ≤ 0) :
    toDouble x = JSNum.negInf ∨ ∃ r : ℚ, r ≤ 0 ∧ toDouble x = JSNum.fin r := by
  by_cases h0 : x = 0
  · subst h0
    exact Or.inr ⟨0, le_rfl, toDouble_zero⟩
  · have hneg : ¬ 0 < x := not_lt.mpr hx
    have hulp : (0 : ℚ) < (2 : ℚ) ^ (max (binade x) (-1022) - 52) := by positivity
    have hq : x / (2 : ℚ) ^ (max (binade x) (-1022) - 52) ≤ 0 :=
      div_nonpos_of_nonpos_of_nonneg hx hulp.le
    have hr0 := roundHalfEven_nonpos _ hq
    have hr : (roundHalfEven (x / (2 : ℚ) ^ (max (binade x) (-1022) - 52)) : ℚ) *
        (2 : ℚ) ^ (max (binade x) (-1022) - 52) ≤ 0 := by
      have : (roundHalfEven (x / (2 : ℚ) ^ (max (binade x) (-1022) - 52)) : ℚ) ≤ 0 := by
        exact_mod_cast hr0
      exact mul_nonpos_of_nonpos_of_nonneg this hulp.le
    simp only [toDouble, h0, if_false, hneg]
    split_ifs
    · exact Or.inl rfl
    · exact Or.inr ⟨_, hr, rfl⟩

/-! ## Counter animator -/

theorem tick16_single (t : CounterTimer) (classes : Elem → List String)
    (text : Elem → Option Text) (calls : List (Elem × JSNum × JSNum)) :
    tick16 { classes := classes, text := text, intervals := [t], animateCalls := calls } =
      { classes := classes
        text := if t.running then
            (fun e => if e = t.element then some t.tick.2 else text e) else text
        intervals := [t.step]
        animateCalls := calls } := by
  unfold tick16 CounterTimer.step
  by_cases h : t.running = true <;> simp [h]

theorem step_not_running (t : CounterTimer) (h : t.running = false) : t.step = t := by
  simp [CounterTimer.step, h]

theorem ticks_single_stopped (t : CounterTimer) (h : t.running = false) (n : Nat) :
    ∀ (classes : Elem → List String) (text : Elem → Option Text)
      (calls : List (Elem × JSNum × JSNum)),
      ticks n { classes := classes, text := text, intervals := [t], animateCalls := calls } =
        { classes := classes, text := text, intervals := [t], animateCalls := calls } := by
  induction n with
  | zero => intro classes text calls; rfl
  | succ n ih =>
    intro classes text calls
    simp only [ticks, tick16_single, step_not_running t h, h, Bool.false_eq_true, if_false]
    exact ih classes text calls

theorem ticks_add (m n : Nat) (w : CounterWorld) : ticks (m + n) w = ticks n (ticks m w) := by
  induction m generalizing w with
  | zero => simp [ticks]
  | succ m ih =>
    rw [Nat.succ_add]
    simp only [ticks]
    exact ih _

/-- After any number of periods a world with one interval timer still has exactly one. -/
theorem ticks_single_shape (n : Nat) :
    ∀ (t : CounterTimer) (classes : Elem → List String) (text : Elem → Option Text)
      (calls : List (Elem × JSNum × JSNum)),
      ∃ text1,
        ticks n { classes := classes, text := text, intervals := [t], animateCalls := calls } =
          { classes := classes, text := text1, intervals := [CounterTimer.step^[n] t],
            animateCalls := calls } := by
  induction n with
  | zero => intro t classes text calls; exact ⟨text, rfl⟩
  | succ n ih =>
    intro t classes text calls
    simp only [ticks, tick16_single]
    obtain ⟨text1, h1⟩ := ih t.step classes
      (if t.running then (fun e => if e = t.element then some t.tick.2 else text e) else text) calls
    exact ⟨text1, by rw [h1, Function.iterate_succ_apply]⟩

theorem tick_target (t : CounterTimer) : t.tick.1.target = t.target ∧
    t.tick.1.element = t.element ∧ t.tick.1.increment = t.increment := by
  unfold CounterTimer.tick
  by_cases h : (t.current.add t.increment).ge t.target = true <;> simp [h]

theorem step_fields (t : CounterTimer) : t.step.target = t.target ∧
    t.step.element = t.element ∧ t.step.increment = t.increment := by
  unfold CounterTimer.step
  split
  · exact tick_target t
  · simp

theorem iterate_step_fields (n : Nat) (t : CounterTimer) :
    (CounterTimer.step^[n] t).target = t.target ∧
    (CounterTimer.step^[n] t).element = t.element ∧
    (CounterTimer.step^[n] t).increment = t.increment := by
  induction n generalizing t with
  | zero => simp
  | succ n ih =>
    rw [Function.iterate_succ_apply]
    have h1 := ih t.step
    have h2 := step_fields t
    exact ⟨h1.1.trans h2.1, h1.2.1.trans h2.2.1, h1.2.2.trans h2.2.2⟩

/-- The write made on a tick that cancels the timer is `finalText target`. -/
theorem tick_cancel_text (t : CounterTimer) (h : t.tick.1.running = false)
    (hr : t.running = true) : t.tick.2 = finalText t.target := by
  unfold CounterTimer.tick at h ⊢
  by_cases hge : (t.current.add t.increment).ge t.target = true
  · simp [hge]
  · simp [hge, hr] at h

theorem isWhole_fin_iff (q : ℚ) : (JSNum.fin q).isWhole = true ↔ ∃ z : ℤ, q = z := by
  simp only [JSNum.isWhole, decide_eq_true_eq]
  constructor
  · intro h
    by_cases hq : 0 ≤ q
    · simp only [hq, if_true] at h
      exact ⟨⌊q⌋, by linarith⟩
    · simp only [hq, if_false] at h
      exact ⟨⌈q⌉, by linarith⟩
  · rintro ⟨z, rfl⟩
    split <;> simp

theorem fixed_value_eq_iff (q : ℚ) :
    (Text.fixed (decide (q < 0)) (⌊|q| * 10 + 1 / 2⌋).toNat).value = JSNum.fin q ↔
      ∃ z : ℤ, q * 10 = z := by
  have hnn : (0 : ℤ) ≤ ⌊|q| * 10 + 1 / 2⌋ := by
    apply Int.floor_nonneg.mpr
    have := abs_nonneg q
    linarith
  have hcast : (((⌊|q| * 10 + 1 / 2⌋).toNat : ℕ) : ℚ) = ((⌊|q| * 10 + 1 / 2⌋ : ℤ) : ℚ) := by
    have h := Int.toNat_of_nonneg hnn
    exact_mod_cast congrArg (fun z : ℤ => (z : ℚ)) h
  simp only [Text.value, JSNum.fin.injEq, hcast]
  constructor
  · intro h
    by_cases hq : q < 0
    · simp only [hq, decide_True, if_true] at h
      exact ⟨-⌊|q| * 10 + 1 / 2⌋, by push_cast; linarith⟩
    · simp only [hq, decide_False, Bool.false_eq_true, if_false] at h
      exact ⟨⌊|q| * 10 + 1 / 2⌋, by linarith⟩
  · rintro ⟨z, hz⟩
    by_cases hq : q < 0
    · have habs : |q| * 10 = ((-z : ℤ) : ℚ) := by
        rw [abs_of_neg hq]; push_cast; linarith
      have hfl : ⌊|q| * 10 + 1 / 2⌋ = -z := by
        rw [habs, Int.floor_eq_iff]
        constructor <;> norm_num
      simp only [hq, decide_True, if_true, hfl]
      push_cast
      linarith
    · have habs : |q| * 10 = ((z : ℤ) : ℚ) := by
        rw [abs_of_nonneg (not_lt.mp hq)]; linarith
      have hfl : ⌊|q| * 10 + 1 / 2⌋ = z := by
        rw [habs, Int.floor_eq_iff]
        constructor <;> norm_num
      simp only [hq, decide_False, Bool.false_eq_true, if_false, hfl]
      linarith

/-- The final text denotes the target exactly when the target has at most one
decimal digit (or is so large that `toFixed` falls back to `String(target)`). -/
theorem finalText_value_iff (q : ℚ) :
    (finalText (JSNum.fin q)).value = JSNum.fin q ↔
      ((∃ z : ℤ, q * 10 = z) ∨ (10 : ℚ) ^ 21 ≤ |q|) := by
  unfold finalText
  by_cases hw : (JSNum.fin q).isWhole = true
  · obtain ⟨z, hz⟩ := (isWhole_fin_iff q).mp hw
    simp only [hw, if_true, Text.value, true_iff]
    exact Or.inl ⟨z * 10, by rw [hz]; push_cast; ring⟩
  · simp only [hw, Bool.false_eq_true, if_false, toFixed1]
    by_cases hbig : (10 : ℚ) ^ 21 ≤ |q|
    · simp only [hbig, if_true, Text.value, true_iff]
      exact Or.inr trivial
    · simp only [hbig, if_false, or_false]
      exact fixed_value_eq_iff q

theorem animateCounter_fresh (el : Elem) (q : ℚ) (duration : JSNum) :
    animateCounter (some el) (JSNum.fin q) duration CounterWorld.fresh =
      { classes := fun _ => [], text := fun _ => none,
        intervals := [{ element := el, target := JSNum.fin q,
                        increment := (JSNum.fin q).div (duration.div (JSNum.fin 16)),
                        current := JSNum.fin 0, running := true }],
        animateCalls := [] } := by
  simp [animateCounter, CounterWorld.fresh, JSNum.isNaN]

theorem ticks_succ (n : Nat) (w : CounterWorld) : ticks (n + 1) w = tick16 (ticks n w) := by
  rw [ticks_add n 1 w]; rfl

/-- C1 (amended): for a non-null element and a finite target, the write made on the
tick that cancels the timer is `String(target)` when the target is whole and
`target.toFixed(1)` otherwise, and no later tick changes it; that text denotes the
target exactly if and only if the target has at most one decimal digit (or is at
least `10^21` in magnitude, where `toFixed` falls back to `String(target)`). -/
theorem counter_last_write_is_final_text (el : Elem) (q : ℚ) (duration : JSNum) (n : Nat)
    (hrun : counterRunning
      (ticks n (animateCounter (some el) (JSNum.fin q) duration CounterWorld.fresh)) = true)
    (hstop : counterRunning
      (ticks (n + 1) (animateCounter (some el) (JSNum.fin q) duration CounterWorld.fresh)) = false) :
    (∀ m, (ticks (n + 1 + m)
        (animateCounter (some el) (JSNum.fin q) duration CounterWorld.fresh)).text el =
      some (finalText (JSNum.fin q))) ∧
    finalText (JSNum.fin q) =
      (if (JSNum.fin q).isWhole then Text.number (JSNum.fin q) else toFixed1 (JSNum.fin q)) ∧
    ((finalText (JSNum.fin q)).value = JSNum.fin q ↔
      ((∃ z : ℤ, q * 10 = z) ∨ (10 : ℚ) ^ 21 ≤ |q|)) := by
  refine ⟨?_, rfl, finalText_value_iff q⟩
  rw [animateCounter_fresh] at hrun hstop ⊢
  obtain ⟨text1, h1⟩ := ticks_single_shape n
    { element := el, target := JSNum.fin q,
      increment := (JSNum.fin q).div (duration.div (JSNum.fin 16)),
      current := JSNum.fin 0, running := true } (fun _ => []) (fun _ => none) []
  have hf := iterate_step_fields n
    { element := el, target := JSNum.fin q,
      increment := (JSNum.fin q).div (duration.div (JSNum.fin 16)),
      current := JSNum.fin 0, running := true }
  rw [ticks_succ, h1, tick16_single] at hstop
  rw [h1] at hrun
  simp only [counterRunning, List.any_cons, List.any_nil, Bool.or_false] at hrun hstop
  intro m
  rw [ticks_add (n + 1) m, ticks_succ, h1, tick16_single]
  rw [ticks_single_stopped _ hstop]
  simp only [hrun, if_true, hf.2.1]
  have hs : (CounterTimer.step^[n]
      { element := el, target := JSNum.fin q,
        increment := (JSNum.fin q).div (duration.div (JSNum.fin 16)),
        current := JSNum.fin 0, running := true }).tick.1.running = false := by
    simpa [CounterTimer.step, hrun] using hstop
  rw [tick_cancel_text _ hs hrun, hf.1]

/-- Witness for C1: target 150 with duration 2000 ends on the text `"150"`, target 33.5
with duration 1600 on `"33.5"`. -/
theorem counter_last_write_is_final_text_witness :
    (∀ m, (ticks (124 + 1 + m)
        (animateCounter (some 0) (JSNum.fin 150) (JSNum.fin 2000) CounterWorld.fresh)).text 0 =
      some (finalText (JSNum.fin 150))) ∧
    (finalText (JSNum.fin 150)).render = some "150" ∧
    (∀ m, (ticks (99 + 1 + m)
        (animateCounter (some 0) (JSNum.fin (335 / 10)) (JSNum.fin 1600) CounterWorld.fresh)).text 0 =
      some (finalText (JSNum.fin (335 / 10)))) ∧
    (finalText (JSNum.fin (335 / 10))).render = some "33.5" :=
  ⟨(counter_last_write_is_final_text 0 150 (JSNum.fin 2000) 124 (by decide!) (by decide!)).1,
   by decide!,
   (counter_last_write_is_final_text 0 (335 / 10) (JSNum.fin 1600) 99 (by decide!) (by decide!)).1,
   by decide!⟩

/-- C1 (counterexample): `animateCounter(el, 0.25, 16)` is cancelled by its first tick,
whose write is `(0.25).toFixed(1)`, the text `"0.3"`, which denotes `0.3`, not the
target `0.25`. -/
theorem counter_last_write_rounds_quarter :
    counterRunning (animateCounter (some 0) (JSNum.fin (1 / 4)) (JSNum.fin 16)
      CounterWorld.fresh) = true ∧
    counterRunning (ticks 1 (animateCounter (some 0) (JSNum.fin (1 / 4)) (JSNum.fin 16)
      CounterWorld.fresh)) = false ∧
    (ticks 1 (animateCounter (some 0) (JSNum.fin (1 / 4)) (JSNum.fin 16)
      CounterWorld.fresh)).text 0 = some (Text.fixed false 3) ∧
    (Text.fixed false 3).render = some "0.3" ∧
    (Text.fixed false 3).value = JSNum.fin (3 / 10) ∧
    (Text.fixed false 3).value ≠ JSNum.fin (1 / 4) := by
  decide!


/-- C3 (amended): `animateCounter` leaves the page untouched (no timer, no write)
exactly when the element is null or the target is `NaN`; for every other target,
the infinities included, it starts one interval timer. -/
theorem animateCounter_noop_iff (element : Option Elem) (target duration : JSNum)
    (w : CounterWorld) :
    (animateCounter element target duration w = w ↔ (element = none ∨ target = JSNum.nan)) ∧
    (animateCounter element target duration w).text = w.text ∧
    (animateCounter element target duration w).intervals.length =
      w.intervals.length + (if element = none ∨ target = JSNum.nan then 0 else 1) := by
  have hnoop : (element = none ∨ target = JSNum.nan) →
      animateCounter element target duration w = w := by
    rintro (rfl | rfl)
    · rfl
    · cases element <;> simp [animateCounter, JSNum.isNaN]
  have hstart : ¬ (element = none ∨ target = JSNum.nan) →
      (animateCounter element target duration w).intervals.length = w.intervals.length + 1 ∧
      (animateCounter element target duration w).text = w.text := by
    intro h
    push_neg at h
    obtain ⟨el, rfl⟩ := Option.ne_none_iff_exists'.mp h.1
    have hn : target.isNaN = false := by
      cases target <;> simp_all [JSNum.isNaN]
    simp [animateCounter, hn]
  by_cases h : element = none ∨ target = JSNum.nan
  · simp only [h, if_true, iff_true, hnoop h, Nat.add_zero, and_self]
  · have hs := hstart h
    refine ⟨⟨fun heq => ?_, hnoop⟩, hs.2, by simp only [h, if_false, hs.1]⟩
    rw [heq] at hs
    omega

/-- C3 (counterexample): with target `+Infinity` the call is not a no-op: it starts a
timer whose first tick writes `String(Infinity)`, the text `"Infinity"`. -/
theorem animateCounter_infinity_starts_timer :
    (animateCounter (some 0) JSNum.posInf (JSNum.fin 2000) CounterWorld.fresh).intervals.length
      = 1 ∧
    (ticks 1 (animateCounter (some 0) JSNum.posInf (JSNum.fin 2000) CounterWorld.fresh)).text 0
      = some (Text.number JSNum.posInf) ∧
    (Text.number JSNum.posInf).render = some "Infinity" ∧
    CounterWorld.fresh.intervals.length = 0 ∧
    CounterWorld.fresh.text 0 = none := by
  decide!

theorem add_fin (a b : ℚ) : (JSNum.fin a).add (JSNum.fin b) = toDouble (a + b) := rfl

theorem div_fin (a b : ℚ) (hb : b ≠ 0) : (JSNum.fin a).div (JSNum.fin b) = toDouble (a / b) := by
  simp [JSNum.div, hb]

theorem iterate_step_stopped (t : CounterTimer) (h : t.running = false) (m : Nat) :
    CounterTimer.step^[m] t = t := by
  induction m with
  | zero => rfl
  | succ m ih => rw [Function.iterate_succ_apply', ih, step_not_running t h]

/-- A timer that is cancelled after `n` ticks is cancelled after every later tick. -/
theorem iterate_step_stays_stopped (t : CounterTimer) (n m : Nat) (hnm : n ≤ m)
    (h : (CounterTimer.step^[n] t).running = false) :
    (CounterTimer.step^[m] t).running = false := by
  obtain ⟨k, rfl⟩ := Nat.exists_eq_add_of_le hnm
  rw [Nat.add_comm n k, Function.iterate_add_apply, iterate_step_stopped _ h]
  exact h

/-- If the timer is cancelled after `B` ticks, there is a first cancelling tick. -/
theorem exists_cancel_tick (t : CounterTimer) (B : Nat) (hrun : t.running = true)
    (hstop : (CounterTimer.step^[B] t).running = false) :
    ∃ n0 : Nat, 1 ≤ n0 ∧ n0 ≤ B ∧
      (∀ m, m < n0 → (CounterTimer.step^[m] t).running = true) ∧
      (∀ m, n0 ≤ m → (CounterTimer.step^[m] t).running = false) := by
  classical
  have hex : ∃ n, (CounterTimer.step^[n] t).running = false := ⟨B, hstop⟩
  refine ⟨Nat.find hex, ?_, Nat.find_min' hex hstop, ?_, ?_⟩
  · by_contra hc
    have h0 : Nat.find hex = 0 := by omega
    have := Nat.find_spec hex
    rw [h0] at this
    simp only [Function.iterate_zero, id_eq] at this
    rw [hrun] at this
    cases this
  · intro m hm
    have := Nat.find_min hex hm
    simpa using this
  · intro m hm
    exact iterate_step_stays_stopped t _ m hm (Nat.find_spec hex)

theorem counterRunning_ticks (el : Elem) (q : ℚ) (duration : JSNum) (m : Nat) :
    counterRunning (ticks m (animateCounter (some el) (JSNum.fin q) duration CounterWorld.fresh)) =
      (CounterTimer.step^[m]
        { element := el, target := JSNum.fin q,
          increment := (JSNum.fin q).div (duration.div (JSNum.fin 16)),
          current := JSNum.fin 0, running := true }).running := by
  rw [animateCounter_fresh]
  obtain ⟨text1, h1⟩ := ticks_single_shape m
    { element := el, target := JSNum.fin q,
      increment := (JSNum.fin q).div (duration.div (JSNum.fin 16)),
      current := JSNum.fin 0, running := true } (fun _ => []) (fun _ => none) []
  rw [h1]
  simp [counterRunning]

/-- One tick of a running timer with finite, non-negative sum and an increment of the
normal range: if the timer is still running afterwards, the new sum is finite, below
the target and at least `(current + increment) * (1 - 2^-53)`. -/
theorem step_running_bound (el : Elem) (t i c : ℚ) (hc : 0 ≤ c)
    (hi : (2 : ℚ) ^ (-1022 : ℤ) ≤ i)
    (hrun : (CounterTimer.step { element := el, target := JSNum.fin t, increment := JSNum.fin i,
                                 current := JSNum.fin c, running := true }).running = true) :
    ∃ c1 : ℚ, (c + i) * (1 - (2 : ℚ) ^ (-53 : ℤ)) ≤ c1 ∧ c1 < t ∧
      CounterTimer.step { element := el, target := JSNum.fin t, increment := JSNum.fin i,
                          current := JSNum.fin c, running := true } =
        { element := el, target := JSNum.fin t, increment := JSNum.fin i,
          current := JSNum.fin c1, running := true } := by
  obtain ⟨r, hr0, herr, hval⟩ := toDouble_normal (c + i) (by linarith)
  have hlow : (c + i) * (1 - (2 : ℚ) ^ (-53 : ℤ)) ≤ r := by
    have := (abs_le.mp herr).1
    linarith
  simp only [CounterTimer.step, if_true, CounterTimer.tick, add_fin, hval] at hrun ⊢
  by_cases hbig : (2 : ℚ) ^ (1024 : ℤ) ≤ r
  · simp [hbig, JSNum.ge] at hrun
  · simp only [hbig, if_false] at hrun ⊢
    by_cases hge : t ≤ r
    · simp [JSNum.ge, hge] at hrun
    · refine ⟨r, hlow, not_le.mp hge, ?_⟩
      simp [JSNum.ge, hge]

/-- While the timer runs, the sum after `n` ticks is at least
`n * increment * (1 - 2^-53)^n`. -/
theorem iterate_step_lower_bound (el : Elem) (t i : ℚ) (hi : (2 : ℚ) ^ (-1022 : ℤ) ≤ i)
    (n : Nat)
    (hrun : (CounterTimer.step^[n]
      { element := el, target := JSNum.fin t, increment := JSNum.fin i,
        current := JSNum.fin 0, running := true }).running = true) :
    ∃ c : ℚ, (n : ℚ) * i * (1 - (2 : ℚ) ^ (-53 : ℤ)) ^ n ≤ c ∧ (1 ≤ n → c < t) ∧
      CounterTimer.step^[n]
        { element := el, target := JSNum.fin t, increment := JSNum.fin i,
          current := JSNum.fin 0, running := true } =
        { element := el, target := JSNum.fin t, increment := JSNum.fin i,
          current := JSNum.fin c, running := true } := by
  have hu0 : (0 : ℚ) ≤ 1 - (2 : ℚ) ^ (-53 : ℤ) := by norm_num
  have hu1 : 1 - (2 : ℚ) ^ (-53 : ℤ) ≤ 1 := by norm_num
  have hipos : 0 < i := lt_of_lt_of_le (by positivity) hi
  induction n with
  | zero => exact ⟨0, by simp, by simp, rfl⟩
  | succ n ih =>
    have hprev : (CounterTimer.step^[n]
        { element := el, target := JSNum.fin t, increment := JSNum.fin i,
          current := JSNum.fin 0, running := true }).running = true := by
      by_contra hc
      have hf := iterate_step_stays_stopped _ n (n + 1) (Nat.le_succ n)
        (by simpa using hc)
      rw [hf] at hrun
      cases hrun
    obtain ⟨c, hc1, _, hshape⟩ := ih hprev
    have hpow0 : (0 : ℚ) ≤ (1 - (2 : ℚ) ^ (-53 : ℤ)) ^ n := pow_nonneg hu0 n
    have hpow1 : (1 - (2 : ℚ) ^ (-53 : ℤ)) ^ n ≤ 1 := pow_le_one₀ hu0 hu1
    have hc0 : 0 ≤ c := by
      have : (0 : ℚ) ≤ (n : ℚ) * i * (1 - (2 : ℚ) ^ (-53 : ℤ)) ^ n := by positivity
      linarith
    rw [Function.iterate_succ_apply', hshape] at hrun ⊢
    obtain ⟨c1, h1, h2, h3⟩ := step_running_bound el t i c hc0 hi hrun
    refine ⟨c1, ?_, fun _ => h2, h3⟩
    have hstep : ((n : ℚ) + 1) * i * (1 - (2 : ℚ) ^ (-53 : ℤ)) ^ n ≤ c + i := by
      have : i * (1 - (2 : ℚ) ^ (-53 : ℤ)) ^ n ≤ i := by
        calc i * (1 - (2 : ℚ) ^ (-53 : ℤ)) ^ n ≤ i * 1 :=
              mul_le_mul_of_nonneg_left hpow1 hipos.le
          _ = i := mul_one i
      linarith
    calc ((n + 1 : ℕ) : ℚ) * i * (1 - (2 : ℚ) ^ (-53 : ℤ)) ^ (n + 1)
        = ((n : ℚ) + 1) * i * (1 - (2 : ℚ) ^ (-53 : ℤ)) ^ n * (1 - (2 : ℚ) ^ (-53 : ℤ)) := by
          push_cast; ring
      _ ≤ (c + i) * (1 - (2 : ℚ) ^ (-53 : ℤ)) := mul_le_mul_of_nonneg_right hstep hu0
      _ ≤ c1 := h1

/-- The arithmetic behind the tick bound: with rounding errors of at most `2^-53` per
operation and a duration of at most `10^9` ms, `ceil(duration / 16) + 1` increments
reach the target. -/
theorem sum_reaches_target (t K k i : ℚ) (B : Nat) (ht : 0 < t) (hK0 : 0 < K)
    (hK : K ≤ 62500000) (hk0 : 0 < k) (hk : k ≤ K * (1 + (2 : ℚ) ^ (-53 : ℤ)))
    (hi : t / k * (1 - (2 : ℚ) ^ (-53 : ℤ)) ≤ i) (hB1 : K + 1 ≤ (B : ℚ))
    (hB2 : (B : ℚ) ≤ K + 2) :
    t ≤ (B : ℚ) * i * (1 - (2 : ℚ) ^ (-53 : ℤ)) ^ B := by
  have hu : (2 : ℚ) ^ (-53 : ℤ) = 1 / 9007199254740992 := by norm_num
  rw [hu] at hk hi ⊢
  have hB0 : (0 : ℚ) < (B : ℚ) := by linarith
  have hBle : (B : ℚ) ≤ 62500002 := by linarith
  have hBsq : (B : ℚ) * (B : ℚ) ≤ 62500002 * 62500002 :=
    mul_le_mul hBle hBle hB0.le (by norm_num)
  -- Bernoulli
  have hbern : 1 - (B : ℚ) * (1 / 9007199254740992) ≤ (1 - (1 / 9007199254740992 : ℚ)) ^ B := by
    have := one_add_mul_le_pow (by norm_num : (-2 : ℚ) ≤ -(1 / 9007199254740992)) B
    have h1 : (1 : ℚ) + (B : ℚ) * -(1 / 9007199254740992) =
        1 - (B : ℚ) * (1 / 9007199254740992) := by ring
    have h2 : (1 : ℚ) + -(1 / 9007199254740992) = 1 - 1 / 9007199254740992 := by ring
    rw [h1, h2] at this
    exact this
  have hbern0 : (0 : ℚ) ≤ 1 - (B : ℚ) * (1 / 9007199254740992) := by linarith
  -- the polynomial inequality
  have hpoly : K * (1 + 1 / 9007199254740992) ≤
      (B : ℚ) * (1 - 1 / 9007199254740992) * (1 - (B : ℚ) * (1 / 9007199254740992)) := by
    nlinarith
  have hKu : (0 : ℚ) < K * (1 + 1 / 9007199254740992) := by positivity
  -- `i` is at least `t * (1 - u) / (K * (1 + u))`
  have hi2 : t * (1 - 1 / 9007199254740992) / (K * (1 + 1 / 9007199254740992)) ≤ i := by
    refine le_trans ?_ hi
    rw [div_mul_eq_mul_div]
    exact div_le_div_of_nonneg_left (by positivity) hk0 hk
  have hi0 : 0 ≤ i := le_trans (by positivity) hi2
  calc t = t * (K * (1 + 1 / 9007199254740992)) / (K * (1 + 1 / 9007199254740992)) := by
        field_simp
    _ ≤ t * ((B : ℚ) * (1 - 1 / 9007199254740992) *
          (1 - (B : ℚ) * (1 / 9007199254740992))) / (K * (1 + 1 / 9007199254740992)) := by
        apply div_le_div_of_nonneg_right _ hKu.le
        exact mul_le_mul_of_nonneg_left hpoly ht.le
    _ = (B : ℚ) * (t * (1 - 1 / 9007199254740992) / (K * (1 + 1 / 9007199254740992))) *
          (1 - (B : ℚ) * (1 / 9007199254740992)) := by ring
    _ ≤ (B : ℚ) * i * (1 - (B : ℚ) * (1 / 9007199254740992)) := by
        apply mul_le_mul_of_nonneg_right _ hbern0
        exact mul_le_mul_of_nonneg_left hi2 hB0.le
    _ ≤ (B : ℚ) * i * (1 - (1 / 9007199254740992 : ℚ)) ^ B := by
        apply mul_le_mul_of_nonneg_left hbern
        positivity

/-- The value of `duration / 16` for a duration between 1 and `10^9`: finite, positive
and within a relative error of `2^-53`. -/
theorem duration_div_16 (d : ℚ) (hd1 : 1 ≤ d) (hd2 : d ≤ 10 ^ 9) :
    ∃ k : ℚ, 0 < k ∧ k ≤ d / 16 * (1 + (2 : ℚ) ^ (-53 : ℤ)) ∧
      (JSNum.fin d).div (JSNum.fin 16) = JSNum.fin k := by
  have hK0 : (1 : ℚ) / 16 ≤ d / 16 := by linarith
  have hnorm : (2 : ℚ) ^ (-1022 : ℤ) ≤ d / 16 := by
    have h1 : (2 : ℚ) ^ (-1022 : ℤ) ≤ (2 : ℚ) ^ (-4 : ℤ) :=
      zpow_le_zpow_right₀ (by norm_num) (by norm_num)
    have h2 : (2 : ℚ) ^ (-4 : ℤ) = 1 / 16 := by norm_num
    linarith
  obtain ⟨k, _, herr, hval⟩ := toDouble_normal (d / 16) hnorm
  have hu : (2 : ℚ) ^ (-53 : ℤ) = 1 / 9007199254740992 := by norm_num
  have hle := (abs_le.mp herr).2
  have hge := (abs_le.mp herr).1
  have hkpos : 0 < k := by
    rw [hu] at hge
    nlinarith
  have hsmall : ¬ (2 : ℚ) ^ (1024 : ℤ) ≤ k := by
    have h1 : (2 : ℚ) ^ (30 : ℤ) ≤ (2 : ℚ) ^ (1024 : ℤ) :=
      zpow_le_zpow_right₀ (by norm_num) (by norm_num)
    have h2 : (2 : ℚ) ^ (30 : ℤ) = 1073741824 := by norm_num
    rw [hu] at hle
    intro hbig
    nlinarith
  refine ⟨k, hkpos, by linarith, ?_⟩
  rw [div_fin d 16 (by norm_num), hval, if_neg hsmall]

/-- C2 (amended): for a non-null element, a target that is `0` or at least `2^-900`
and a duration between 1 and `10^9` ms, with the sums rounded to binary64 as the
script computes them, the interval timer is cancelled on some tick `n0` with
`1 ≤ n0 ≤ ceil(duration / 16) + 1`: it runs before tick `n0` and stays cancelled from
tick `n0` on. -/
theorem counter_cancelled_within_bound (el : Elem) (t d : ℚ)
    (ht : t = 0 ∨ 1 / (2 : ℚ) ^ 900 ≤ t) (hd1 : 1 ≤ d) (hd2 : d ≤ 10 ^ 9) :
    ∃ n0 : Nat, 1 ≤ n0 ∧ n0 ≤ ⌈d / 16⌉.toNat + 1 ∧
      (∀ m, m < n0 → counterRunning
        (ticks m (animateCounter (some el) (JSNum.fin t) (JSNum.fin d) CounterWorld.fresh)) = true) ∧
      (∀ m, n0 ≤ m → counterRunning
        (ticks m (animateCounter (some el) (JSNum.fin t) (JSNum.fin d) CounterWorld.fresh)) = false) := by
  simp only [counterRunning_ticks]
  obtain ⟨k, hk0, hk, hkval⟩ := duration_div_16 d hd1 hd2
  rw [hkval, div_fin t k hk0.ne']
  apply exists_cancel_tick _ _ rfl
  have hK0 : (0 : ℚ) < d / 16 := by linarith
  have hceil : (1 : ℤ) ≤ ⌈d / 16⌉ := Int.one_le_ceil_iff.mpr hK0
  have hBcast : ((⌈d / 16⌉.toNat + 1 : ℕ) : ℚ) = ((⌈d / 16⌉ : ℤ) : ℚ) + 1 := by
    have h := Int.toNat_of_nonneg (by omega : (0 : ℤ) ≤ ⌈d / 16⌉)
    push_cast
    have : ((⌈d / 16⌉.toNat : ℕ) : ℚ) = ((⌈d / 16⌉ : ℤ) : ℚ) := by
      exact_mod_cast congrArg (fun z : ℤ => (z : ℚ)) h
    rw [this]
  -- it is enough to see the timer cancelled after one tick or after `B` ticks
  have hone : ∀ T : CounterTimer, (CounterTimer.step^[1] T).running = false →
      (CounterTimer.step^[⌈d / 16⌉.toNat + 1] T).running = false := fun T h =>
    iterate_step_stays_stopped T 1 _ (by omega) h
  rcases ht with ht0 | htpos
  · -- target 0: the increment is 0 and the first tick cancels
    subst ht0
    apply hone
    simp [CounterTimer.step, CounterTimer.tick, add_fin, toDouble_zero, JSNum.ge]
  · have hu : (2 : ℚ) ^ (-53 : ℤ) = 1 / 9007199254740992 := by norm_num
    have htp : 0 < t := lt_of_lt_of_le (by positivity) htpos
    have hkle : k ≤ (2 : ℚ) ^ (27 : ℕ) := by
      rw [hu] at hk
      norm_num at hk ⊢
      nlinarith
    have hquot : (2 : ℚ) ^ (-927 : ℤ) ≤ t / k := by
      rw [le_div_iff₀ hk0]
      have h927 : (2 : ℚ) ^ (-927 : ℤ) = 1 / (2 : ℚ) ^ 900 * (1 / (2 : ℚ) ^ (27 : ℕ)) := by
        rw [show (-927 : ℤ) = -((900 : ℕ) : ℤ) + -((27 : ℕ) : ℤ) by norm_num,
          zpow_add₀ (by norm_num), zpow_neg, zpow_neg, zpow_natCast, zpow_natCast]
        simp [one_div]
      rw [h927]
      calc 1 / (2 : ℚ) ^ 900 * (1 / (2 : ℚ) ^ (27 : ℕ)) * k
          ≤ 1 / (2 : ℚ) ^ 900 * (1 / (2 : ℚ) ^ (27 : ℕ)) * (2 : ℚ) ^ (27 : ℕ) :=
            mul_le_mul_of_nonneg_left hkle (by positivity)
        _ = 1 / (2 : ℚ) ^ 900 := by
            rw [mul_assoc, one_div_mul_cancel (by positivity), mul_one]
        _ ≤ t := htpos
    have hnorm : (2 : ℚ) ^ (-1022 : ℤ) ≤ t / k :=
      le_trans (zpow_le_zpow_right₀ (by norm_num) (by norm_num)) hquot
    obtain ⟨i, _, herr, hval⟩ := toDouble_normal (t / k) hnorm
    rw [hval]
    by_cases hbig : (2 : ℚ) ^ (1024 : ℤ) ≤ i
    · -- the increment overflows to `+Infinity`: the first tick cancels
      rw [if_pos hbig]
      apply hone
      simp [CounterTimer.step, CounterTimer.tick, JSNum.add, JSNum.ge]
    · rw [if_neg hbig]
      have hilow : t / k * (1 - (2 : ℚ) ^ (-53 : ℤ)) ≤ i := by
        have := (abs_le.mp herr).1
        linarith
      have hinorm : (2 : ℚ) ^ (-1022 : ℤ) ≤ i := by
        have h1 : (2 : ℚ) ^ (-1022 : ℤ) ≤ (2 : ℚ) ^ (-928 : ℤ) :=
          zpow_le_zpow_right₀ (by norm_num) (by norm_num)
        have h2 : (2 : ℚ) ^ (-928 : ℤ) = (2 : ℚ) ^ (-927 : ℤ) * (1 / 2) := by
          rw [show (-928 : ℤ) = -927 + -1 by norm_num, zpow_add₀ (by norm_num)]
          norm_num
        have h3 : (2 : ℚ) ^ (-927 : ℤ) * (1 / 2) ≤ t / k * (1 - (2 : ℚ) ^ (-53 : ℤ)) := by
          apply mul_le_mul hquot (by norm_num) (by norm_num)
          exact le_trans (by positivity) hquot
        calc (2 : ℚ) ^ (-1022 : ℤ) ≤ (2 : ℚ) ^ (-928 : ℤ) := h1
          _ = (2 : ℚ) ^ (-927 : ℤ) * (1 / 2) := h2
          _ ≤ t / k * (1 - (2 : ℚ) ^ (-53 : ℤ)) := h3
          _ ≤ i := hilow
      by_contra hrun
      have hrun' : (CounterTimer.step^[⌈d / 16⌉.toNat + 1]
          { element := el, target := JSNum.fin t, increment := JSNum.fin i,
            current := JSNum.fin 0, running := true }).running = true := by
        simpa using hrun
      obtain ⟨c, hc1, hc2, _⟩ := iterate_step_lower_bound el t i hinorm _ hrun'
      have hreach := sum_reaches_target t (d / 16) k i (⌈d / 16⌉.toNat + 1) htp hK0
        (by linarith) hk0 hk hilow
        (by rw [hBcast]; linarith [Int.le_ceil (d / 16)])
        (by rw [hBcast]; linarith [Int.ceil_lt_add_one (d / 16)])
      have := hc2 (by omega)
      linarith

/-- Witness for C2: `animateCounter(el, 50, 2000)` is cancelled within 126 ticks. -/
theorem counter_cancelled_within_bound_witness :
    ∃ n0 : Nat, 1 ≤ n0 ∧ n0 ≤ ⌈(2000 : ℚ) / 16⌉.toNat + 1 ∧
      (∀ m, m < n0 → counterRunning
        (ticks m (animateCounter (some 0) (JSNum.fin 50) (JSNum.fin 2000) CounterWorld.fresh))
          = true) ∧
      (∀ m, n0 ≤ m → counterRunning
        (ticks m (animateCounter (some 0) (JSNum.fin 50) (JSNum.fin 2000) CounterWorld.fresh))
          = false) :=
  counter_cancelled_within_bound 0 50 2000
    (Or.inr (le_trans (one_div_le_one_div_of_le (by norm_num) (one_le_pow₀ (by norm_num)))
      (by norm_num)))
    (by norm_num) (by norm_num)

theorem orDefault_negative : orDefault (JSNum.fin (-16)) (JSNum.fin 2000) = JSNum.fin (-16) := by
  decide!

theorem increment_negative_duration :
    (JSNum.fin 1).div ((JSNum.fin (-16)).div (JSNum.fin 16)) = JSNum.fin (-1) := by
  decide!

/-- With target 1 and increment -1 the sum never becomes positive, so the timer keeps
running. -/
theorem step_negative_increment (T : CounterTimer) (hr : T.running = true)
    (ht : T.target = JSNum.fin 1) (hi : T.increment = JSNum.fin (-1))
    (hc : T.current = JSNum.negInf ∨ ∃ r : ℚ, r ≤ 0 ∧ T.current = JSNum.fin r) :
    T.step.running = true ∧ T.step.target = JSNum.fin 1 ∧ T.step.increment = JSNum.fin (-1) ∧
      (T.step.current = JSNum.negInf ∨ ∃ r : ℚ, r ≤ 0 ∧ T.step.current = JSNum.fin r) := by
  have hnew : T.current.add T.increment = JSNum.negInf ∨
      ∃ r : ℚ, r ≤ 0 ∧ T.current.add T.increment = JSNum.fin r := by
    rcases hc with hc | ⟨r, hr0, hc⟩
    · left; rw [hc, hi]; rfl
    · rw [hc, hi, add_fin]
      exact toDouble_nonpos _ (by linarith)
  have hge : (T.current.add T.increment).ge T.target = false := by
    rcases hnew with h | ⟨r, hr0, h⟩
    · rw [h, ht]; rfl
    · rw [h, ht]
      simp only [JSNum.ge, decide_eq_false_iff_not, not_le]
      linarith
  have hstep : T.step = { T with current := T.current.add T.increment } := by
    simp only [CounterTimer.step, hr, if_true, CounterTimer.tick, hge, Bool.false_eq_true,
      if_false]
  rw [hstep]
  exact ⟨hr, ht, hi, hnew⟩

theorem iterate_negative_increment (n : Nat) (T : CounterTimer) (hr : T.running = true)
    (ht : T.target = JSNum.fin 1) (hi : T.increment = JSNum.fin (-1))
    (hc : T.current = JSNum.negInf ∨ ∃ r : ℚ, r ≤ 0 ∧ T.current = JSNum.fin r) :
    (CounterTimer.step^[n] T).running = true := by
  induction n generalizing T with
  | zero => exact hr
  | succ n ih =>
    rw [Function.iterate_succ_apply]
    obtain ⟨h1, h2, h3, h4⟩ := step_negative_increment T hr ht hi hc
    exact ih T.step h1 h2 h3 h4

/-- C2 (counterexample): a counter element with `data-counter="1"` and
`data-duration="-16"` makes `initCounters` call `animateCounter(el, 1, -16)`; the
increment is `-1`, so `current` never reaches the target and no tick cancels the
timer, let alone one of the first `ceil(-16 / 16)`. And `animateCounter(el, 50, 2000)`
is still running after `ceil(2000 / 16) = 125` ticks, because the rounded sum of 125
increments stays below 50; its 126th tick cancels it. -/
theorem counter_not_cancelled_within_ceil :
    orDefault (JSNum.fin (-16)) (JSNum.fin 2000) = JSNum.fin (-16) ∧
    (¬ ∃ n : Nat, counterRunning
      (ticks n (countersCallback
        { dataCounter := fun _ => JSNum.fin 1, dataDuration := fun _ => JSNum.fin (-16) }
        0 { target := 0, isIntersecting := true } CounterWorld.fresh)) = false) ∧
    ⌈(2000 : ℚ) / 16⌉ = 125 ∧
    counterRunning (ticks 125
      (animateCounter (some 0) (JSNum.fin 50) (JSNum.fin 2000) CounterWorld.fresh)) = true ∧
    counterRunning (ticks 126
      (animateCounter (some 0) (JSNum.fin 50) (JSNum.fin 2000) CounterWorld.fresh)) = false := by
  refine ⟨orDefault_negative, ?_, by norm_num, by decide!, by decide!⟩
  rintro ⟨n, hn⟩
  have hw : countersCallback
      { dataCounter := fun _ => JSNum.fin 1, dataDuration := fun _ => JSNum.fin (-16) }
      0 { target := 0, isIntersecting := true } CounterWorld.fresh =
      { classes := fun e => if e = 0 then classListAdd "counted" [] else []
        text := fun _ => none
        intervals := [{ element := 0, target := JSNum.fin 1, increment := JSNum.fin (-1),
                        current := JSNum.fin 0, running := true }]
        animateCalls := [(0, JSNum.fin 1, JSNum.fin (-16))] } := by
    simp only [countersCallback, orDefault_negative, animateCounter, JSNum.isNaN,
      increment_negative_duration]
    simp [CounterWorld.fresh]
  rw [hw] at hn
  obtain ⟨text1, h1⟩ := ticks_single_shape n
    { element := 0, target := JSNum.fin 1, increment := JSNum.fin (-1),
      current := JSNum.fin 0, running := true }
    (fun e => if e = 0 then classListAdd "counted" [] else []) (fun _ => none)
    [(0, JSNum.fin 1, JSNum.fin (-16))]
  rw [h1] at hn
  have hrun := iterate_negative_increment n
    { element := 0, target := JSNum.fin 1, increment := JSNum.fin (-1),
      current := JSNum.fin 0, running := true } rfl rfl rfl (Or.inr ⟨0, le_rfl, rfl⟩)
  simp [counterRunning, hrun] at hn


theorem animateCounter_classes (element : Option Elem) (target duration : JSNum)
    (w : CounterWorld) : (animateCounter element target duration w).classes = w.classes := by
  unfold animateCounter
  cases element with
  | none => rfl
  | some el => cases target.isNaN <;> simp

theorem countersCallback_other (page : CounterPage) (el x : Elem) (entry : Entry)
    (w : CounterWorld) (hx : x ≠ el) :
    callsFor el (countersCallback page x entry w) = callsFor el w ∧
    timersFor el (countersCallback page x entry w) = timersFor el w ∧
    (countersCallback page x entry w).classes el = w.classes el := by
  unfold countersCallback
  by_cases hc : "counted" ∈ w.classes x
  · simp [hc]
  · have hel : ¬ el = x := fun h => hx h.symm
    simp only [hc, if_false, callsFor, timersFor, hel]
    refine ⟨?_, ?_, by rw [animateCounter_classes]⟩
    · cases hnan : (page.dataCounter x).isNaN <;>
        simp [animateCounter, hnan, List.filter_append, hx]
    · cases hnan : (page.dataCounter x).isNaN <;>
        simp [animateCounter, hnan, List.filter_append, hx]

theorem countersCallback_counted (page : CounterPage) (el : Elem) (entry : Entry)
    (w : CounterWorld) (hc : "counted" ∈ w.classes el) :
    countersCallback page el entry w = w := by
  simp [countersCallback, hc]

theorem countersCallback_first (page : CounterPage) (el : Elem) (entry : Entry)
    (w : CounterWorld) (hc : "counted" ∉ w.classes el) :
    callsFor el (countersCallback page el entry w) = callsFor el w + 1 ∧
    timersFor el (countersCallback page el entry w) =
      timersFor el w + (if (page.dataCounter el).isNaN then 0 else 1) ∧
    "counted" ∈ (countersCallback page el entry w).classes el := by
  unfold countersCallback
  simp only [hc, if_false, callsFor, timersFor, if_true]
  refine ⟨?_, ?_, ?_⟩
  · cases hnan : (page.dataCounter el).isNaN <;>
      simp [animateCounter, hnan, List.filter_append]
  · cases hnan : (page.dataCounter el).isNaN <;>
      simp [animateCounter, hnan, List.filter_append]
  · rw [animateCounter_classes]
    simp [classListAdd, hc]

theorem deliver_eq_flatten {σ : Type} (callback : Elem → Entry → σ → σ)
    (invocations : List (List Entry)) (s : σ) :
    deliver callback invocations s = observerCallback callback invocations.flatten s := by
  unfold deliver observerCallback
  induction invocations generalizing s with
  | nil => rfl
  | cons es rest ih => simp only [List.foldl_cons, List.flatten_cons, List.foldl_append, ih]

/-- Once the element carries `counted`, no entry makes the binding call the animator. -/
theorem observerCallback_counted (page : CounterPage) (el : Elem) (entries : List Entry) :
    ∀ w : CounterWorld, "counted" ∈ w.classes el →
      callsFor el (observerCallback (countersCallback page) entries w) = callsFor el w ∧
      timersFor el (observerCallback (countersCallback page) entries w) = timersFor el w ∧
      "counted" ∈ (observerCallback (countersCallback page) entries w).classes el := by
  induction entries with
  | nil => intro w hc; exact ⟨rfl, rfl, hc⟩
  | cons e rest ih =>
    intro w hc
    simp only [observerCallback, List.foldl_cons]
    by_cases hi : e.isIntersecting = true
    · simp only [hi, if_true]
      by_cases hx : e.target = el
      · rw [hx, countersCallback_counted page el e w hc]
        exact ih w hc
      · obtain ⟨h1, h2, h3⟩ := countersCallback_other page el e.target e w hx
        obtain ⟨g1, g2, g3⟩ := ih (countersCallback page e.target e w) (by rw [h3]; exact hc)
        exact ⟨by rw [← h1]; exact g1, by rw [← h2]; exact g2, g3⟩
    · simp only [hi, Bool.false_eq_true, if_false]
      exact ih w hc

theorem observerCallback_uncounted (page : CounterPage) (el : Elem) (entries : List Entry) :
    ∀ w : CounterWorld, "counted" ∉ w.classes el →
      callsFor el (observerCallback (countersCallback page) entries w) =
        callsFor el w +
          (if entries.any (fun e => e.target = el && e.isIntersecting) then 1 else 0) ∧
      timersFor el (observerCallback (countersCallback page) entries w) ≤ timersFor el w + 1 := by
  induction entries with
  | nil => intro w _; simp [observerCallback]
  | cons e rest ih =>
    intro w hc
    simp only [observerCallback, List.foldl_cons, List.any_cons]
    by_cases hi : e.isIntersecting = true
    · simp only [hi, if_true, Bool.and_true]
      by_cases hx : e.target = el
      · obtain ⟨h1, h2, h3⟩ := countersCallback_first page el e w hc
        obtain ⟨g1, g2, _⟩ := observerCallback_counted page el rest
          (countersCallback page el e w) h3
        simp only [observerCallback] at g1 g2
        rw [hx]
        simp only [decide_True, Bool.true_or, if_true]
        refine ⟨by rw [g1, h1], ?_⟩
        rw [g2, h2]
        split <;> omega
      · obtain ⟨h1, h2, h3⟩ := countersCallback_other page el e.target e w hx
        obtain ⟨g1, g2⟩ := ih (countersCallback page e.target e w) (by rw [h3]; exact hc)
        simp only [observerCallback] at g1 g2
        simp only [hx, decide_False, Bool.false_or]
        exact ⟨by rw [g1, h1], by rw [← h2]; exact g2⟩
    · simp only [hi, Bool.false_eq_true, if_false, Bool.and_false, Bool.false_or]
      exact ih w hc

theorem everIntersecting_flatten (el : Elem) (invocations : List (List Entry)) :
    invocations.flatten.any (fun e => decide (e.target = el) && e.isIntersecting) =
      everIntersecting el invocations := by
  unfold everIntersecting
  induction invocations with
  | nil => rfl
  | cons es rest ih => simp only [List.flatten_cons, List.any_append, List.any_cons, ih]

/-- C6: over any sequence of watcher callback invocations of the counter binding, the
binding calls `animateCounter` for an element that does not yet carry `counted`
exactly once if some delivered entry for it is intersecting and never otherwise (and
never for an element that already carries `counted`); so at most one new interval
timer writes that element's text. -/
theorem counter_binding_starts_animation_once (page : CounterPage) (el : Elem)
    (invocations : List (List Entry)) (w : CounterWorld) :
    callsFor el (deliver (countersCallback page) invocations w) =
      callsFor el w +
        (if "counted" ∈ w.classes el then 0
         else if everIntersecting el invocations then 1 else 0) ∧
    timersFor el (deliver (countersCallback page) invocations w) ≤ timersFor el w + 1 := by
  rw [deliver_eq_flatten]
  by_cases hc : "counted" ∈ w.classes el
  · obtain ⟨h1, h2, _⟩ := observerCallback_counted page el invocations.flatten w hc
    simp only [hc, if_true, h1, h2, Nat.add_zero, true_and]
    omega
  · obtain ⟨h1, h2⟩ := observerCallback_uncounted page el invocations.flatten w hc
    rw [everIntersecting_flatten] at h1
    simp only [hc, if_false]
    exact ⟨h1, h2⟩

/-- Three deliveries for one counter element, two of them intersecting: one call. -/
theorem counter_binding_example :
    callsFor 0 (deliver
      (countersCallback { dataCounter := fun _ => JSNum.fin 150, dataDuration := fun _ => JSNum.nan })
      [[{ target := 0, isIntersecting := true }], [{ target := 0, isIntersecting := false }],
       [{ target := 0, isIntersecting := true }]] CounterWorld.fresh) = 1 ∧
    timersFor 0 (deliver
      (countersCallback { dataCounter := fun _ => JSNum.fin 150, dataDuration := fun _ => JSNum.nan })
      [[{ target := 0, isIntersecting := true }], [{ target := 0, isIntersecting := false }],
       [{ target := 0, isIntersecting := true }]] CounterWorld.fresh) = 1 := by
  decide!


/-! ## Staggered reveal bindings -/

theorem revealCallback_pendingFor (doc : Document) (b : RevealBinding) (el x : Elem)
    (entry : Entry) (w : RevealWorld) :
    pendingFor el (revealCallback doc b x entry w) =
      pendingFor el w + (if x = el then 1 else 0) := by
  unfold revealCallback scheduleAddClass Timers.setTimeout pendingFor
  by_cases h : x = el <;> simp [List.filter_append, h]

/-- Every staggered reveal binding registers one timer per intersecting entry: the
callback has no guard against entries delivered after the first. -/
theorem reveal_one_timer_per_intersecting_entry (doc : Document) (b : RevealBinding)
    (el : Elem) (invocations : List (List Entry)) (w : RevealWorld) :
    pendingFor el (deliver (revealCallback doc b) invocations w) =
      pendingFor el w + intersectingCount el invocations := by
  rw [deliver_eq_flatten]
  unfold intersectingCount observerCallback
  generalize invocations.flatten = entries
  induction entries generalizing w with
  | nil => simp
  | cons e rest ih =>
    simp only [List.foldl_cons]
    by_cases hi : e.isIntersecting = true
    · simp only [hi, if_true]
      rw [ih, revealCallback_pendingFor]
      by_cases hx : e.target = el
      · simp [hx, hi]
        omega
      · simp [hx]
    · simp only [hi, Bool.false_eq_true, if_false]
      rw [ih]
      simp [hi]

/-- C5 (failing input): one `.finding-card` element that is reported intersecting in
two watcher invocations (it leaves the viewport and comes back). `initFindingCards`
registers two timers for it and the closure that adds `visible` runs twice, where
`initComparisonCards`, which checks its marker class first, acts once. -/
theorem finding_card_reveal_fires_twice :
    pendingFor 0 (deliver (revealCallback (fun _ => [0]) findingCards)
      [[{ target := 0, isIntersecting := true }], [{ target := 0, isIntersecting := true }]]
      (RevealWorld.fresh 0)) = 2 ∧
    (flushTimers (deliver (revealCallback (fun _ => [0]) findingCards)
      [[{ target := 0, isIntersecting := true }], [{ target := 0, isIntersecting := true }]]
      (RevealWorld.fresh 0))).fired =
      [(0, { element := 0, cls := "visible" }), (0, { element := 0, cls := "visible" })] ∧
    (flushTimers (deliver (revealCallback (fun _ => [0]) findingCards)
      [[{ target := 0, isIntersecting := true }], [{ target := 0, isIntersecting := true }]]
      (RevealWorld.fresh 0))).classes 0 = ["visible"] ∧
    (deliver comparisonCallback
      [[{ target := 0, isIntersecting := true }], [{ target := 0, isIntersecting := true }]]
      (RevealWorld.fresh 0)).classes 0 = ["animated"] := by
  decide


/-! ## `debounce` -/

theorem call_idle {α : Type} (W now nextId : Nat) (tmo : Option Nat) (log : List (Nat × α))
    (b : α) :
    Debounced.call
      { wait := (W : Int), timers := { now := now, nextId := nextId, pending := [] },
        timeout := tmo, executed := log } b =
      { wait := (W : Int),
        timers := { now := now, nextId := nextId + 1,
                    pending := [{ id := nextId, due := now + W, callback := b }] },
        timeout := some nextId, executed := log } := by
  cases tmo <;> simp [Debounced.call, Timers.clearTimeout, Timers.setTimeout]

theorem call_waiting {α : Type} (W now nextId id due : Nat) (a : α) (log : List (Nat × α))
    (b : α) :
    Debounced.call
      { wait := (W : Int),
        timers := { now := now, nextId := nextId,
                    pending := [{ id := id, due := due, callback := a }] },
        timeout := some id, executed := log } b =
      { wait := (W : Int),
        timers := { now := now, nextId := nextId + 1,
                    pending := [{ id := nextId, due := now + W, callback := b }] },
        timeout := some nextId, executed := log } := by
  simp [Debounced.call, Timers.clearTimeout, Timers.setTimeout]

theorem advance_idle {α : Type} (W now nextId : Nat) (tmo : Option Nat) (log : List (Nat × α))
    (dt : Nat) :
    Debounced.advance
      ({ wait := (W : Int), timers := { now := now, nextId := nextId, pending := [] },
         timeout := tmo, executed := log } : Debounced α) dt =
      { wait := (W : Int), timers := { now := now + dt, nextId := nextId, pending := [] },
        timeout := tmo, executed := log } := by
  simp [Debounced.advance, Debounced.fireDue]

theorem advance_waiting_fire {α : Type} (W now nextId id due : Nat) (a : α)
    (log : List (Nat × α)) (dt : Nat) (hdue : due ≤ now + dt) (hnow : now ≤ due) :
    Debounced.advance
      { wait := (W : Int),
        timers := { now := now, nextId := nextId,
                    pending := [{ id := id, due := due, callback := a }] },
        timeout := some id, executed := log } dt =
      { wait := (W : Int), timers := { now := now + dt, nextId := nextId, pending := [] },
        timeout := some id, executed := log ++ [(due, a)] } := by
  simp [Debounced.advance, Debounced.fireDue, earliest, hdue, Debounced.fire, Timers.pop,
    Timers.clearTimeout, max_eq_right hnow]

theorem advance_waiting_keep {α : Type} (W now nextId id due : Nat) (a : α)
    (log : List (Nat × α)) (dt : Nat) (hdue : now + dt < due) :
    Debounced.advance
      { wait := (W : Int),
        timers := { now := now, nextId := nextId,
                    pending := [{ id := id, due := due, callback := a }] },
        timeout := some id, executed := log } dt =
      { wait := (W : Int),
        timers := { now := now + dt, nextId := nextId,
                    pending := [{ id := id, due := due, callback := a }] },
        timeout := some id, executed := log } := by
  simp [Debounced.advance, Debounced.fireDue, earliest, not_le.mpr hdue]

theorem callTimes_ge {α : Type} (events : List (DebounceEvent α)) :
    ∀ (now : Nat), ∀ c ∈ callTimes now events, now ≤ c.1 := by
  induction events with
  | nil => intro now c hc; simp [callTimes] at hc
  | cons e rest ih =>
    intro now c hc
    cases e with
    | call args =>
      simp only [callTimes, List.mem_cons] at hc
      rcases hc with rfl | hc
      · exact le_rfl
      · exact ih now c hc
    | advance dt =>
      simp only [callTimes] at hc
      have := ih (now + dt) c hc
      omega

theorem run_cons {α : Type} (d : Debounced α) (e : DebounceEvent α)
    (events : List (DebounceEvent α)) :
    d.run (e :: events) = (d.step e).run events := rfl

theorem any_lt_false_of_ge {α : Type} (l : List (Nat × α)) (bound : Nat)
    (h : ∀ c ∈ l, bound ≤ c.1) : l.any (fun c => decide (c.1 < bound)) = false := by
  rw [List.any_eq_false]
  intro c hc
  have := h c hc
  simp only [decide_eq_true_eq]
  omega

theorem debounce_run_aux {α : Type} (W : Nat) (events : List (DebounceEvent α)) :
    ∀ (now nextId : Nat) (log : List (Nat × α)),
      (∀ tmo : Option Nat,
        (0 < W ∨ (callTimes now events).Pairwise (fun x y => x.1 < y.1)) →
        (Debounced.run
          { wait := (W : Int), timers := { now := now, nextId := nextId, pending := [] },
            timeout := tmo, executed := log }
          (events ++ [DebounceEvent.advance W])).executed =
          log ++ debounceExpected W (callTimes now events)) ∧
      (∀ (id tc : Nat) (a : α), tc ≤ now → (now < tc + W ∨ now = tc) →
        (0 < W ∨ ((tc, a) :: callTimes now events).Pairwise (fun x y => x.1 < y.1)) →
        (Debounced.run
          { wait := (W : Int),
            timers := { now := now, nextId := nextId,
                        pending := [{ id := id, due := tc + W, callback := a }] },
            timeout := some id, executed := log }
          (events ++ [DebounceEvent.advance W])).executed =
          log ++ debounceExpected W ((tc, a) :: callTimes now events)) := by
  induction events with
  | nil =>
    intro now nextId log
    constructor
    · intro tmo _
      simp [Debounced.run, Debounced.step, advance_idle, callTimes, debounceExpected]
    · intro id tc a htc _ _
      have h1 : tc + W ≤ now + W := by omega
      have h2 : now ≤ tc + W := by omega
      simp only [List.nil_append, Debounced.run, List.foldl_cons, List.foldl_nil, Debounced.step,
        advance_waiting_fire W now nextId id (tc + W) a log W h1 h2, callTimes, debounceExpected,
        List.any_nil, Bool.false_eq_true, if_false, List.append_nil]
  | cons e rest ih =>
    intro now nextId log
    cases e with
    | call b =>
      constructor
      · intro tmo hH
        simp only [List.cons_append, run_cons, Debounced.step, call_idle, callTimes]
        refine (ih now (nextId + 1) log).2 nextId now b le_rfl (Or.inr rfl) hH
      · intro id tc a htc hinv hH
        simp only [List.cons_append, run_cons, Debounced.step, call_waiting, callTimes]
        have hlt : now < tc + W := by
          rcases hinv with h | h
          · exact h
          · rcases hH with hW | hP
            · omega
            · have := (List.pairwise_cons.mp hP).1 (now, b) (by simp [callTimes])
              simp only at this
              omega
        have hH2 : 0 < W ∨ ((now, b) :: callTimes now rest).Pairwise (fun x y => x.1 < y.1) := by
          rcases hH with hW | hP
          · exact Or.inl hW
          · exact Or.inr (List.pairwise_cons.mp hP).2
        rw [(ih now (nextId + 1) log).2 nextId now b le_rfl (Or.inr rfl) hH2]
        have hany : ((now, b) :: callTimes now rest).any (fun c => decide (c.1 < tc + W)) = true := by
          simp [hlt]
        rw [debounceExpected.eq_2 W tc a, hany]
        simp
    | advance dt =>
      constructor
      · intro tmo hH
        simp only [List.cons_append, run_cons, Debounced.step, advance_idle, callTimes]
        exact (ih (now + dt) nextId log).1 tmo hH
      · intro id tc a htc hinv hH
        simp only [List.cons_append, run_cons, Debounced.step, callTimes]
        by_cases hdue : tc + W ≤ now + dt
        · rw [advance_waiting_fire W now nextId id (tc + W) a log dt hdue (by omega)]
          have hH2 : 0 < W ∨ (callTimes (now + dt) rest).Pairwise (fun x y => x.1 < y.1) := by
            rcases hH with hW | hP
            · exact Or.inl hW
            · exact Or.inr (List.pairwise_cons.mp hP).2
          rw [(ih (now + dt) nextId (log ++ [(tc + W, a)])).1 (some id) hH2]
          have hany : (callTimes (now + dt) rest).any (fun c => decide (c.1 < tc + W)) = false :=
            any_lt_false_of_ge _ _ (fun c hc => by
              have := callTimes_ge rest (now + dt) c hc
              omega)
          rw [debounceExpected.eq_2 W tc a, hany]
          simp
        · have hlt : now + dt < tc + W := not_le.mp hdue
          rw [advance_waiting_keep W now nextId id (tc + W) a log dt hlt]
          exact (ih (now + dt) nextId log).2 id tc a (by omega) (Or.inl hlt) hH

/-- A burst (every call less than `wait` ms after the one before) owes one execution,
that of its last call. -/
theorem debounceExpected_burst {α : Type} (W : Nat) (calls : List (Nat × α)) :
    ∀ last : Nat × α, calls.getLast? = some last →
      calls.Chain' (fun x y => y.1 < x.1 + W) →
      debounceExpected W calls = [(last.1 + W, last.2)] := by
  induction calls with
  | nil => intro last h; simp at h
  | cons x rest ih =>
    intro last hlast hchain
    cases rest with
    | nil =>
      simp only [List.getLast?_singleton, Option.some.injEq] at hlast
      subst hlast
      simp [debounceExpected]
    | cons y rest2 =>
      have hc := List.chain'_cons.mp hchain
      have hany : (y :: rest2).any (fun c => decide (c.1 < x.1 + W)) = true := by
        simp [hc.1]
      have hl : (y :: rest2).getLast? = some last := by
        rw [List.getLast?_cons_cons] at hlast
        exact hlast
      rw [debounceExpected.eq_2 W x.1 x.2, hany]
      simpa using ih last hl hc.2

/-- C9 (amended): for a delay `wait > 0`, or for calls made at strictly increasing
times, and every finite sequence of calls and clock advances followed by `wait` ms
without a call, `func` runs exactly once for each call that is not followed by
another call less than `wait` ms later, with that call's arguments and `wait` ms
after it, and for no other call; in particular a burst in which every call comes less
than `wait` ms after the one before runs `func` once, with the last call's
arguments. -/
theorem debounce_runs_settled_calls {α : Type} (W now : Nat) (events : List (DebounceEvent α))
    (h : 0 < W ∨ (callTimes now events).Pairwise (fun x y => x.1 < y.1)) :
    ((debounce (W : Int) now : Debounced α).run
        (events ++ [DebounceEvent.advance W])).executed =
      debounceExpected W (callTimes now events) ∧
    (∀ last : Nat × α, (callTimes now events).getLast? = some last →
      (callTimes now events).Chain' (fun x y => y.1 < x.1 + W) →
      ((debounce (W : Int) now : Debounced α).run
          (events ++ [DebounceEvent.advance W])).executed = [(last.1 + W, last.2)]) := by
  have hrun : ((debounce (W : Int) now : Debounced α).run
      (events ++ [DebounceEvent.advance W])).executed =
      debounceExpected W (callTimes now events) := by
    have := (debounce_run_aux W events now 1 []).1 none h
    simpa [debounce, Timers.fresh] using this
  refine ⟨hrun, ?_⟩
  intro last hlast hchain
  rw [hrun, debounceExpected_burst W _ last hlast hchain]

/-- Witness for C9: with `wait = 10`, calls at times 0, 10 and 13 run `func` for the
first call at time 10 and for the third at time 23. -/
theorem debounce_runs_settled_calls_witness :
    ((debounce (10 : Int) 0 : Debounced String).run
        ([DebounceEvent.call "a", DebounceEvent.advance 10, DebounceEvent.call "b",
          DebounceEvent.advance 3, DebounceEvent.call "c"] ++ [DebounceEvent.advance 10])).executed =
      [(10, "a"), (23, "c")] :=
  (debounce_runs_settled_calls 10 0
    [DebounceEvent.call "a", DebounceEvent.advance 10, DebounceEvent.call "b",
      DebounceEvent.advance 3, DebounceEvent.call "c"] (Or.inl (by decide))).1.trans (by decide)

/-- C9 (counterexample): with `wait = 0`, two calls made back to back (both at clock
time 0) are each not followed by a call less than 0 ms later, so both are owed an
execution; but the second call clears the timer of the first, and `func` runs only
once, with the arguments of the second call. -/
theorem debounce_zero_wait_drops_first_call :
    callTimes 0 [DebounceEvent.call "a", DebounceEvent.call "b"] = [(0, "a"), (0, "b")] ∧
    debounceExpected 0 [(0, "a"), (0, "b")] = [(0, "a"), (0, "b")] ∧
    ((debounce (0 : Int) 0 : Debounced String).run
        ([DebounceEvent.call "a", DebounceEvent.call "b"] ++ [DebounceEvent.advance 0])).executed =
      [(0, "b")] ∧
    ((debounce (0 : Int) 0 : Debounced String).run
        ([DebounceEvent.call "a", DebounceEvent.call "b"] ++ [DebounceEvent.advance 1000])).executed =
      [(0, "b")] := by
  decide

end NFLInjury
